import Mathlib

/-!
Shallow embedding of the block-sealing worker (`core/worker.go`) of the
go-quai node.  Pure data is modelled with `Nat`/`Int`/`List`; machine
integers use explicit `% 2^w` where Go overflow semantics matter; external
collaborators (consensus engine, header chain, state database, tx pool,
raw key-value helpers) are passed in as explicit function parameters, as
the specification treats them as consumed interfaces.
-/

namespace QuaiWorker

/-- Block / body / header hashes, modelled as naturals. -/
abbrev Hash := Nat

/-- Account addresses (`common.Address` / `common.AddressBytes`). -/
abbrev Address := Nat

/-- Event-log entries are opaque for the worker; their identity is all
that matters (deep copies preserve contents). -/
abbrev Log := Nat

/-- `params.TxGas` = 21000: gas needed by any transaction. -/
def TxGas : Nat := 21000

/-- `staleThreshold` = 7: maximum acceptable depth of a stale uncle. -/
def staleThreshold : Nat := 7

/-- `pendingBlockBodyLimit` = 1024: capacity of the pending-body LRU. -/
def pendingBlockBodyLimit : Nat := 1024

/-- `types.ReceiptStatusSuccessful`. -/
def ReceiptStatusSuccessful : Nat := 1

/-- A transaction, keeping only the fields the worker reads:
its hash (`tx.Hash()`) and nonce (`tx.Nonce()`). -/
structure Transaction where
  hash : Hash
  nonce : Nat
  deriving DecidableEq, Inhabited

/-- An execution receipt: status word, emitted cross-context transactions
(`receipt.Etxs`), logs and gas used. -/
structure Receipt where
  status : Nat
  etxs : List Transaction
  logs : List Log
  gasUsed : Nat
  deriving DecidableEq, Inhabited

/-- The world-state snapshot (`state.StateDB`).  `id` models object
identity (each Go allocation is a distinct pointer), `data` the abstract
world-state content, and `prepHash`/`prepIndex` the per-transaction fields
set by `state.Prepare`. -/
structure StateDB where
  id : Nat
  data : Nat
  prepHash : Hash
  prepIndex : Nat
  deriving DecidableEq, Inhabited

/-- Modelled from the spec: `StateDB.Copy` allocates a fresh object whose
content equals the source (readers obtain a state copy).  A fresh `id`
models the fresh allocation. -/
def StateDB.copy (s : StateDB) : StateDB :=
  { s with id := s.id + 1 }

/-- Modelled from the spec: `state.Prepare(txHash, tcount)` sets the
per-transaction journal index used by logs. -/
def StateDB.prepare (s : StateDB) (h : Hash) (i : Nat) : StateDB :=
  { s with prepHash := h, prepIndex := i }

/-- A draft or finalized block header, with the fields `worker.go`
reads or writes through its setters. -/
structure Header where
  parentHash : Hash
  number : Nat
  time : Nat
  gasLimit : Nat
  gasUsed : Nat
  baseFee : Nat
  coinbase : Address
  manifestHash : Hash
  etxRollupHash : Hash
  uncleHash : Hash
  txHash : Hash
  etxHash : Hash
  deriving DecidableEq, Inhabited

/-- `header.SetGasUsed`. -/
def Header.setGasUsed (h : Header) (v : Nat) : Header :=
  { h with gasUsed := v }

/-- `header.SetGasLimit`. -/
def Header.setGasLimit (h : Header) (v : Nat) : Header :=
  { h with gasLimit := v }

/-- `header.SetManifestHash`. -/
def Header.setManifestHash (h : Header) (v : Hash) : Header :=
  { h with manifestHash := v }

/-- `header.SetEtxRollupHash`. -/
def Header.setEtxRollupHash (h : Header) (v : Hash) : Header :=
  { h with etxRollupHash := v }

/-- A block: header, body lists and its own hash (`block.Hash()`,
abstract). -/
structure Block where
  header : Header
  txs : List Transaction
  uncles : List Header
  etxs : List Transaction
  hash : Hash
  deriving DecidableEq, Inhabited

/-- A block body (`types.Body`). -/
structure Body where
  txs : List Transaction
  uncles : List Header
  etxs : List Transaction
  deriving DecidableEq, Inhabited

/-- `&types.Body{}` - the zero-value body rehydrated for the
empty-body sentinel key. -/
def emptyBody : Body := ⟨[], [], []⟩

/-- Modelled from the spec: `types.EmptyBodyHash`, the fingerprint of the
empty body, a fixed constant of the `types` package (not under `src/`). -/
def EmptyBodyHash : Hash := 0

/-- The worker's mutable sealing environment (`environment` struct).
`signer` is modelled as the sender-derivation function
`types.Sender(env.signer, ·)`; `gasPool` is `none` while the Go pointer
is nil. -/
structure environment where
  signer : Transaction → Address
  state : StateDB
  ancestors : List Hash
  family : List Hash
  tcount : Nat
  gasPool : Option Nat
  coinbase : Address
  header : Header
  txs : List Transaction
  etxs : List Transaction
  subManifest : List Hash
  receipts : List Receipt
  uncles : List (Hash × Header)
  externalGasUsed : Nat
  externalBlockLength : Int

/-- `unclelist`: the uncle map as a list of headers. -/
def environment.unclelist (env : environment) : List Header :=
  env.uncles.map Prod.snd

/-- Association-list lookup used to model Go map reads
(`env.uncles[hash]`, LRU peeks, raw-db blob reads). -/
def assocLookup {α : Type} (l : List (Hash × α)) (k : Hash) : Option α :=
  match l with
  | [] => none
  | (k', v) :: rest => if k' = k then some v else assocLookup rest k

/-- Truncating `uint64` arithmetic: Go's unsigned 64-bit wrap-around. -/
def uint64 (n : Nat) : Nat := n % 2 ^ 64

/-- Go's `a - b` on `uint64` operands (wraps on underflow). -/
def uint64sub (a b : Nat) : Nat := (a + 2 ^ 64 - b % 2 ^ 64) % 2 ^ 64

/-- Go's `uint64(i)` conversion of a (64-bit) signed integer: the low 64
bits reinterpreted as unsigned. -/
def uint64OfInt (i : Int) : Nat := (i % (2 ^ 64 : Int)).toNat

/-- Go's 32-bit signed wrap-around, for `atomic.AddInt32` on `newTxs`. -/
def wrap32 (x : Int) : Int := (x + 2 ^ 31) % 2 ^ 32 - 2 ^ 31

/-- `atomic.AddInt32(&w.newTxs, int32(len(ev.Txs)))`. -/
def addInt32 (a b : Int) : Int := wrap32 (a + b)

/-- `adjustGasLimit` (`worker.go:916-921`): the new gas-used target is
`(parent.GasUsed() + env.externalGasUsed) / uint64(env.externalBlockLength+1)`
in `uint64` arithmetic, and the header's gas limit is set to
`CalcGasLimit(parent.GasLimit(), gasUsed)`.  `CalcGasLimit` lives outside
`src/` and is passed in abstractly. -/
def adjustGasLimit (calcGasLimit : Nat → Nat → Nat) (env : environment)
    (parent : Block) : environment :=
  let gasUsed := uint64 (parent.header.gasUsed + env.externalGasUsed) /
    uint64OfInt (env.externalBlockLength + 1)
  let newLimit := calcGasLimit parent.header.gasLimit gasUsed
  { env with header := env.header.setGasLimit newLimit }

/-- The distinct rejection reasons of `commitUncle` (`worker.go:609-627`),
one per `errors.New` string. -/
inductive UncleError where
  | notUnique
  | isSibling
  | parentUnknown
  | alreadyIncluded
  deriving DecidableEq

/-- `commitUncle` (`worker.go:609-627`): under the environment's uncle
write-lock, reject a candidate whose hash is already present, whose
parent is the draft header's parent, whose parent is not a known
ancestor, or whose hash is already in the family; otherwise insert. -/
def commitUncle (hHash : Header → Hash) (env : environment)
    (uncle : Header) : Except UncleError environment :=
  let hash := hHash uncle
  if (assocLookup env.uncles hash).isSome then
    .error .notUnique
  else if env.header.parentHash = uncle.parentHash then
    .error .isSibling
  else if ¬ env.ancestors.contains uncle.parentHash then
    .error .parentUnknown
  else if env.family.contains hash then
    .error .alreadyIncluded
  else
    .ok { env with uncles := env.uncles ++ [(hash, uncle)] }

/-- The error kinds the inclusion loop dispatches on (`worker.go:725-757`):
the four named sentinel errors, the `commitTransaction` nil-transaction
error, and a catch-all for any other execution failure. -/
inductive TxError where
  | gasLimitReached
  | nonceTooLow
  | nonceTooHigh
  | txTypeNotSupported
  | txNotFound
  | unknown
  deriving DecidableEq

/-- The effect of one `ApplyTransaction` call: the (possibly mutated)
state, gas pool and gas-used counter, plus either a receipt or an error.
On error the state mutations are the ones `RevertToSnapshot` undoes;
gas-pool and gas-used mutations persist through the pointers. -/
structure ApplyOutcome where
  state : StateDB
  gasPool : Nat
  gasUsed : Nat
  result : Except TxError Receipt

/-- `ApplyTransaction(chainConfig, chain, coinbase, gasPool, state,
header, tx, &gasUsed, vmConfig)`: tx execution is an external collaborator
(spec section 6), abstracted as a function of the mutable arguments. -/
abbrev ApplyTxFn := StateDB → Nat → Nat → Header → Address → Transaction → ApplyOutcome

/-- `commitTransaction` (`worker.go:650-676`): snapshot the state journal,
apply the transaction, and either revert the state and surface the error,
or write back gas used, append the transaction and receipt, and append
the receipt's cross-context transactions when its status is successful.
Go returns `(logs, err)` while mutating `env` through pointers; the model
returns the updated environment with the `Except` result.  Reverting to
the entry snapshot restores the entry state (the StateDB collaborator's
documented `Snapshot`/`RevertToSnapshot` contract); the gas-pool mutation
persists. -/
def commitTransaction (applyTx : ApplyTxFn) (env : environment)
    (tx? : Option Transaction) : environment × Except TxError (List Log) :=
  match tx? with
  | none => (env, .error .txNotFound)
  | some tx =>
    let gasUsed := env.header.gasUsed
    let out := applyTx env.state (env.gasPool.getD 0) gasUsed env.header env.coinbase tx
    match out.result with
    | .error e =>
      ({ env with gasPool := some out.gasPool }, .error e)
    | .ok receipt =>
      let newEtxs :=
        if receipt.status = ReceiptStatusSuccessful then receipt.etxs else []
      ({ env with
          state := out.state
          gasPool := some out.gasPool
          header := env.header.setGasUsed out.gasUsed
          txs := env.txs ++ [tx]
          receipts := env.receipts ++ [receipt]
          etxs := env.etxs ++ newEtxs }, .ok receipt.logs)

/-- The price-and-nonce-ordered transaction iterator
(`types.TransactionsByPriceAndNonce`), an external collaborator exposing
`Peek`, `Shift(sender, isLocal)` and `Pop` over an abstract iterator
state `ι`. -/
structure TxIter (ι : Type) where
  peek : ι → Option Transaction
  shift : ι → Address → Bool → ι
  pop : ι → ι

/-- One resubmit-interval adjustment message (`intervalAdjust`); `frac`
models the `ratio` field, in exact rational arithmetic standing for the
Go `float64`. -/
structure IntervalAdjust where
  frac : ℚ
  inc : Bool
  deriving DecidableEq

/-- The message sent on the resubmit-adjust channel when the loop sees a
`Resubmit` interrupt (`worker.go:694-702`): the used-gas fraction
`float64(gasLimit()-gasPool.Gas()) / float64(gasLimit())` (the numerator
a `uint64` subtraction), floored at 0.1, with `inc = true`. -/
def resubmitAdjustMsg (gasLimit gas : Nat) : IntervalAdjust :=
  let raw : ℚ := (uint64sub gasLimit gas : ℚ) / (gasLimit : ℚ)
  let clamped := if raw < 1 / 10 then 1 / 10 else raw
  { frac := clamped, inc := true }

/-- The running state of the inclusion loop: the environment, the
iterator position, the coalesced logs, the adjustments sent on the
resubmit-adjust channel, and the pending-logs publication (if any)
performed after the loop. -/
structure LoopState (ι : Type) where
  env : environment
  iter : ι
  logs : List Log
  adjusts : List IntervalAdjust
  published : Option (List Log)

/-- Outcome of one iteration of the inclusion loop: `ret` is the `return`
inside the interrupt branch, `brk` a `break` out of the loop (gas
exhausted or iterator drained), `cont` the next iteration. -/
inductive StepResult (ι : Type) where
  | ret (b : Bool) (s : LoopState ι)
  | brk (s : LoopState ι)
  | cont (s : LoopState ι)

/-- The body of the inclusion loop past the interrupt check
(`worker.go:706-757`): break when the gas pool is below `TxGas` or the
iterator is drained; otherwise derive the sender, call `state.Prepare`,
execute via `commitTransaction`, and dispatch on the error. -/
def commitTransactionsInner {ι : Type} (it : TxIter ι) (applyTx : ApplyTxFn)
    (s : LoopState ι) : StepResult ι :=
  if s.env.gasPool.getD 0 < TxGas then .brk s
  else
    match it.peek s.iter with
    | none => .brk s
    | some tx =>
      let sender := s.env.signer tx
      let env0 := { s.env with state := s.env.state.prepare tx.hash s.env.tcount }
      match commitTransaction applyTx env0 (some tx) with
      | (env', .error .gasLimitReached) =>
        .cont { s with env := env', iter := it.pop s.iter }
      | (env', .error .nonceTooLow) =>
        .cont { s with env := env', iter := it.shift s.iter sender false }
      | (env', .error .nonceTooHigh) =>
        .cont { s with env := env', iter := it.pop s.iter }
      | (env', .ok logs) =>
        .cont { s with env := { env' with tcount := env'.tcount + 1 },
                       iter := it.shift s.iter sender false,
                       logs := s.logs ++ logs }
      | (env', .error .txTypeNotSupported) =>
        .cont { s with env := env', iter := it.pop s.iter }
      | (env', .error _) =>
        .cont { s with env := env', iter := it.shift s.iter sender false }

/-- One full iteration of the inclusion loop (`worker.go:685-757`): when
the interrupt word is non-nil and non-zero, send the interval adjustment
on a `Resubmit` (value 2) interrupt and return whether the word holds
`NewHead` (value 1); otherwise run the loop body. -/
def commitTransactionsStep {ι : Type} (it : TxIter ι) (applyTx : ApplyTxFn)
    (interrupt : Option Int) (s : LoopState ι) : StepResult ι :=
  match interrupt with
  | some v =>
    if v ≠ 0 then
      let s' :=
        if v = 2 then
          let msg := resubmitAdjustMsg s.env.header.gasLimit (s.env.gasPool.getD 0)
          { s with adjusts := s.adjusts ++ [msg] }
        else s
      .ret (decide (v = 1)) s'
    else commitTransactionsInner it applyTx s
  | none => commitTransactionsInner it applyTx s

/-- The post-loop pending-logs publication (`worker.go:760-774`): when the
worker is not sealing and logs were coalesced, publish a deep copy to the
pending-logs feed. -/
def finishPendingLogs {ι : Type} (running : Bool) (s : LoopState ι) : LoopState ι :=
  if ¬ running ∧ s.logs ≠ [] then
    { s with published := some (s.logs.map (fun l => l)) }
  else s

/-- The fuelled inclusion loop: iterate `commitTransactionsStep` until a
`return` or a `break`; `none` means the fuel ran out before the loop
exited (the Go loop has no intrinsic bound). -/
def commitTransactionsLoop {ι : Type} (running : Bool) (it : TxIter ι)
    (applyTx : ApplyTxFn) (interrupt : Option Int) :
    Nat → LoopState ι → Option (Bool × LoopState ι)
  | 0, _ => none
  | Nat.succ fuel, s =>
    match commitTransactionsStep it applyTx interrupt s with
    | .ret b s' => some (b, s')
    | .brk s' => some (false, finishPendingLogs running s')
    | .cont s' => commitTransactionsLoop running it applyTx interrupt fuel s'

/-- `commitTransactions` (`worker.go:678-776`): initialize the gas pool
to the header gas limit when nil, then run the loop from an empty
coalesced-log list.  The `Bool` result is Go's return value (`true` iff
the loop returned because the interrupt word holds `NewHead`). -/
def commitTransactions {ι : Type} (running : Bool) (it : TxIter ι)
    (applyTx : ApplyTxFn) (interrupt : Option Int) (fuel : Nat)
    (env : environment) (iter : ι) : Option (Bool × LoopState ι) :=
  let env :=
    if env.gasPool = none then { env with gasPool := some env.header.gasLimit }
    else env
  commitTransactionsLoop running it applyTx interrupt fuel
    { env := env, iter := iter, logs := [], adjusts := [], published := none }

/-- The `commitUncles` closure of `prepareWork` (`worker.go:851-865`):
walk the candidate blocks, stopping as soon as the environment holds two
uncles, and otherwise try `commitUncle`, ignoring rejections. -/
def commitUncles (hHash : Header → Hash) (env : environment) :
    List (Hash × Block) → environment
  | [] => env
  | (_, uncle) :: rest =>
    if env.uncles.length = 2 then env
    else
      match commitUncle hHash env uncle.header with
      | .ok env' => commitUncles hHash env' rest
      | .error _ => commitUncles hHash env rest

/-- The hierarchical node context (`common.NodeLocation.Context()`). -/
inductive Ctx where
  | prime
  | region
  | zone
  deriving DecidableEq

/-- The pending-block-body LRU cache, oldest entry first.  A value of
`none` models a nil `*types.Body` pointer stored in the cache.  The
hashicorp LRU collaborator: `Add` moves/updates an existing key or
appends a new one, evicting the oldest entry past capacity; `Keys`
lists keys oldest first; `Peek` looks up without recency update. -/
abbrev PBCache := List (Hash × Option Body)

/-- LRU `Keys()`: oldest first. -/
def cacheKeys (c : PBCache) : List Hash := c.map Prod.fst

/-- LRU `Peek` / `Get` lookup (recency is irrelevant to the claims). -/
def cachePeek (c : PBCache) (k : Hash) : Option (Option Body) :=
  assocLookup c k

/-- LRU `Add`: update-or-append at the most-recent end, then evict the
oldest entry if the capacity is exceeded. -/
def cacheAdd (cap : Nat) (c : PBCache) (k : Hash) (v : Option Body) : PBCache :=
  let c' := c.filter (fun p => p.1 ≠ k) ++ [(k, v)]
  if cap < c'.length then c'.tail else c'

/-- LRU `ContainsOrAdd`: add only when the key is absent. -/
def cacheContainsOrAdd (cap : Nat) (c : PBCache) (k : Hash) (v : Option Body) :
    PBCache :=
  if (cachePeek c k).isSome then c else cacheAdd cap c k v

/-- The two logical records of the persisted pending-body table
(spec section 6): the keys index and the per-fingerprint body blobs. -/
structure WorkerDB where
  pbBodyKeys : List Hash
  pbCacheBodies : List (Hash × Option Body)

/-- Modelled from the spec: `rawdb.ReadPbBodyKeys` (repo code outside
`src/`), reading the persisted keys index. -/
def ReadPbBodyKeys (db : WorkerDB) : List Hash := db.pbBodyKeys

/-- Modelled from the spec: `rawdb.WritePbBodyKeys`. -/
def WritePbBodyKeys (db : WorkerDB) (ks : List Hash) : WorkerDB :=
  { db with pbBodyKeys := ks }

/-- Modelled from the spec: `rawdb.ReadPbCacheBody`; a missing blob reads
as a nil body. -/
def ReadPbCacheBody (db : WorkerDB) (k : Hash) : Option Body :=
  (assocLookup db.pbCacheBodies k).join

/-- Modelled from the spec: `rawdb.WritePbCacheBody` (overwrites any blob
at the same fingerprint). -/
def WritePbCacheBody (db : WorkerDB) (k : Hash) (b : Option Body) : WorkerDB :=
  { db with pbCacheBodies := db.pbCacheBodies.filter (fun p => p.1 ≠ k) ++ [(k, b)] }

/-- Modelled from the spec: `rawdb.DeletePbCacheBody`. -/
def DeletePbCacheBody (db : WorkerDB) (k : Hash) : WorkerDB :=
  { db with pbCacheBodies := db.pbCacheBodies.filter (fun p => p.1 ≠ k) }

/-- The worker state touched by the covered entry points: the atomic
`running` flag, the `newTxs` counter (`int32`), the current environment,
the two uncle pools, the pending-body cache with its backing store and
the snapshot triple. -/
structure Worker where
  running : Bool
  newTxs : Int
  current : Option environment
  localUncles : List (Hash × Block)
  remoteUncles : List (Hash × Block)
  pendingBlockBody : PBCache
  workerDb : WorkerDB
  snapshotBlock : Option Block
  snapshotReceipts : List Receipt
  snapshotState : Option StateDB

/-- `isRunning` (`worker.go:349-351`). -/
def isRunning (w : Worker) : Bool := w.running

/-- `copyReceipts` (`worker.go:1033-1040`): element-wise deep copy. -/
def copyReceipts (receipts : List Receipt) : List Receipt :=
  receipts.map (fun l => { status := l.status, etxs := l.etxs,
                           logs := l.logs, gasUsed := l.gasUsed })

/-- `pending` (`worker.go:312-320`): under the snapshot read-lock, return
`(nil, nil)` when no snapshot state exists, else the snapshot block with
a copy of the snapshot state. -/
def pending (w : Worker) : Option Block × Option StateDB :=
  match w.snapshotState with
  | none => (none, none)
  | some s => (w.snapshotBlock, some s.copy)

/-- `pendingBlock` (`worker.go:323-328`): the snapshot block, unguarded. -/
def pendingBlock (w : Worker) : Option Block := w.snapshotBlock

/-- `pendingBlockAndReceipts` (`worker.go:331-336`): the snapshot block
and receipts, unguarded. -/
def pendingBlockAndReceipts (w : Worker) : Option Block × List Receipt :=
  (w.snapshotBlock, w.snapshotReceipts)

/-- `types.NewBlock(header, txs, uncles, etxs, subManifest, receipts,
trie)`: block assembly is a `types`-package collaborator, abstracted. -/
abbrev NewBlockFn :=
  Header → List Transaction → List Header → List Transaction → List Hash →
  List Receipt → Block

/-- `updateSnapshot` (`worker.go:630-648`): rebuild the snapshot block
from the environment; in ZONE context also replace the snapshot receipts
with a deep copy and the snapshot state with a state copy. -/
def updateSnapshot (ctx : Ctx) (newBlock : NewBlockFn) (w : Worker)
    (env : environment) : Worker :=
  let blk := newBlock env.header env.txs env.unclelist env.etxs
    env.subManifest env.receipts
  { w with
    snapshotBlock := some blk
    snapshotReceipts :=
      if ctx = .zone then copyReceipts env.receipts else w.snapshotReceipts
    snapshotState :=
      if ctx = .zone then some env.state.copy else w.snapshotState }

/-- The recursion of `LoadPendingBlockBody` over the persisted keys
(`worker.go:361-372`): rehydrate the empty-body sentinel as an empty
body, read every other blob, and delete each blob after reading it. -/
def loadPendingBodies (cap : Nat) :
    List Hash → PBCache → WorkerDB → PBCache × WorkerDB
  | [], c, db => (c, db)
  | k :: ks, c, db =>
    let c' :=
      if k = EmptyBodyHash then cacheAdd cap c k (some emptyBody)
      else cacheAdd cap c k (ReadPbCacheBody db k)
    loadPendingBodies cap ks c' (DeletePbCacheBody db k)

/-- `LoadPendingBlockBody` (`worker.go:361-372`). -/
def LoadPendingBlockBody (cap : Nat) (w : Worker) : Worker :=
  let (c, db) := loadPendingBodies cap (ReadPbBodyKeys w.workerDb)
    w.pendingBlockBody w.workerDb
  { w with pendingBlockBody := c, workerDb := db }

/-- The recursion of `StorePendingBlockBody` over the LRU keys
(`worker.go:375-388`): for each key that peeks successfully, collect it
and write its blob unless it is the empty-body sentinel. -/
def storePendingBodies (cache : PBCache) (db : WorkerDB) :
    List Hash → List Hash × WorkerDB
  | [] => ([], db)
  | k :: ks =>
    match cachePeek cache k with
    | some v =>
      let db' := if k ≠ EmptyBodyHash then WritePbCacheBody db k v else db
      let (keys, db'') := storePendingBodies cache db' ks
      (k :: keys, db'')
    | none => storePendingBodies cache db ks

/-- `StorePendingBlockBody` (`worker.go:375-388`): write each non-empty
body blob, then write the collected keys index. -/
def StorePendingBlockBody (w : Worker) : Worker :=
  let (keys, db) := storePendingBodies w.pendingBlockBody w.workerDb
    (cacheKeys w.pendingBlockBody)
  { w with workerDb := WritePbBodyKeys db keys }

/-- The 10-second-tick stale-uncle sweep of `mainLoop`
(`worker.go:505-518`): an uncle is deleted when
`uncle.NumberU64()+staleThreshold <= chainHead.NumberU64()`. -/
def staleFilter (chainHeadNumber : Nat) (uncles : List (Hash × Block)) :
    List (Hash × Block) :=
  uncles.filter (fun p => ¬ (p.2.header.number + staleThreshold ≤ chainHeadNumber))

/-- The whole tick arm: sweep both uncle pools against the current chain
head. -/
def mainLoopTick (chainHeadNumber : Nat) (w : Worker) : Worker :=
  { w with localUncles := staleFilter chainHeadNumber w.localUncles,
           remoteUncles := staleFilter chainHeadNumber w.remoteUncles }

/-- Association-list update used to bucket event transactions by sender:
append to the sender's list, creating it when absent
(`txs[acc.Bytes20()] = append(...)`). -/
def assocAppend (m : List (Address × List Transaction)) (a : Address)
    (tx : Transaction) : List (Address × List Transaction) :=
  match m with
  | [] => [(a, [tx])]
  | (a', ts) :: rest =>
    if a' = a then (a', ts ++ [tx]) :: rest
    else (a', ts) :: assocAppend rest a tx

/-- The sender-bucketing loop of the new-tx arm (`worker.go:532-536`). -/
def bucketBySender (signer : Transaction → Address)
    (evTxs : List Transaction) : List (Address × List Transaction) :=
  evTxs.foldl (fun m tx => assocAppend m (signer tx) tx) []

/-- `types.NewTransactionsByPriceAndNonce(signer, txs, baseFee, sort)`:
iterator construction is a `types`-package collaborator, abstracted as a
function of the sender buckets and the base fee. -/
abbrev MkTxSetFn (ι : Type) := List (Address × List Transaction) → Nat → ι

/-- The `continue` guard of the new-tx arm (`worker.go:529-531`):
`gp := w.current.gasPool; gp != nil && gp.Gas() < params.TxGas`. -/
def gasPoolBelowTxGas (gp? : Option Nat) : Bool :=
  match gp? with
  | some gp => decide (gp < TxGas)
  | none => false

/-- The new-tx-event arm of `mainLoop` (`worker.go:520-548`): when not
sealing and a current environment exists, skip the event entirely
(`continue`) if the gas pool is non-nil and below `TxGas`; otherwise
bucket the transactions by sender, run the inclusion loop with no
interrupt, and update the snapshot if `tcount` advanced.  The `newTxs`
counter is bumped by `int32(len(ev.Txs))` on every path that falls
through to the end of the arm.  `none` means the inclusion loop ran out
of fuel. -/
def handleTxsEvent {ι : Type} (ctx : Ctx) (it : TxIter ι)
    (mkTxSet : MkTxSetFn ι) (applyTx : ApplyTxFn) (newBlock : NewBlockFn)
    (fuel : Nat) (w : Worker) (evTxs : List Transaction) : Option Worker :=
  let bump := fun (w' : Worker) =>
    { w' with newTxs := addInt32 w'.newTxs (wrap32 (evTxs.length : Int)) }
  match w.current, isRunning w with
  | some cur, false =>
    if gasPoolBelowTxGas cur.gasPool then some w
    else
      let buckets := bucketBySender cur.signer evTxs
      let txset := mkTxSet buckets cur.header.baseFee
      let tcount := cur.tcount
      match commitTransactions (isRunning w) it applyTx none fuel cur txset with
      | none => none
      | some (_, ls) =>
        let w' := { w with current := some ls.env }
        let w'' :=
          if tcount ≠ ls.env.tcount then updateSnapshot ctx newBlock w' ls.env
          else w'
        some (bump w'')
  | _, _ => some (bump w)

/-- `block.Body()`. -/
def Block.body (b : Block) : Body := ⟨b.txs, b.uncles, b.etxs⟩

/-- The surfaced error kinds of finalize/assemble (spec section 7). -/
inductive CollabErr where
  | finalizeFailed
  | manifestCollection
  | etxRollupCollection
  deriving DecidableEq

/-- The collaborators `FinalizeAssembleAndBroadcast` consumes (spec
section 6): the consensus engine's `FinalizeAndAssemble` and
`IsDomCoincident`, the header chain's manifest and etx-rollup
collection, `types.DeriveSha` over manifests and over transaction
lists, and `types.RlpHash` over the three body roots. -/
structure Collab where
  finalizeAndAssemble : Header → StateDB → List Transaction → List Header →
    List Transaction → List Hash → List Receipt → Except CollabErr Block
  isDomCoincident : Header → Bool
  collectBlockManifest : Header → Except CollabErr (List Hash)
  collectEtxRollup : Block → Except CollabErr (List Transaction)
  deriveShaHashes : List Hash → Hash
  deriveShaTxs : List Transaction → Hash
  rlpHash3 : Hash → Hash → Hash → Hash

/-- `getPendingBlockBodyKey` (`worker.go:1007-1013`): the body
fingerprint, an RLP hash of the uncle, transaction and etx roots. -/
def getPendingBlockBodyKey (rlpHash3 : Hash → Hash → Hash → Hash)
    (header : Header) : Hash :=
  rlpHash3 header.uncleHash header.txHash header.etxHash

/-- `AddPendingBlockBody` (`worker.go:1017-1019`): `ContainsOrAdd` under
the body fingerprint. -/
def AddPendingBlockBody (rlpHash3 : Hash → Hash → Hash → Hash) (cap : Nat)
    (cache : PBCache) (header : Header) (body : Body) : PBCache :=
  cacheContainsOrAdd cap cache (getPendingBlockBodyKey rlpHash3 header) (some body)

/-- `GetPendingBlockBody` (`worker.go:1022-1030`): fingerprint lookup. -/
def GetPendingBlockBody (rlpHash3 : Hash → Hash → Hash → Hash)
    (cache : PBCache) (header : Header) : Option Body :=
  (cachePeek cache (getPendingBlockBodyKey rlpHash3 header)).join

/-- `FinalizeAssembleAndBroadcast` (`worker.go:923-966`): finalize and
assemble the block, compute and set the manifest hash (empty in PRIME,
`[parent.Hash()]` when the parent is dom-coincident, otherwise the
collected manifest with the draft header's parent hash appended), in
ZONE compute and set the etx-rollup hash (the parent's external
transactions when the parent is dom-coincident, otherwise the collected
rollup with the parent's external transactions appended), and register
the body in the pending-body cache. -/
def FinalizeAssembleAndBroadcast (ctx : Ctx) (cb : Collab) (cap : Nat)
    (cache : PBCache) (header : Header) (parent : Block) (st : StateDB)
    (txs : List Transaction) (uncles : List Header) (etxs : List Transaction)
    (subManifest : List Hash) (receipts : List Receipt) :
    Except CollabErr (Block × PBCache) :=
  match cb.finalizeAndAssemble header st txs uncles etxs subManifest receipts with
  | .error e => .error e
  | .ok block =>
    let manifestE : Except CollabErr (List Hash) :=
      if ctx = .prime then .ok []
      else if cb.isDomCoincident parent.header then .ok [parent.hash]
      else
        match cb.collectBlockManifest parent.header with
        | .error e => .error e
        | .ok m => .ok (m ++ [header.parentHash])
    match manifestE with
    | .error e => .error e
    | .ok manifest =>
      let manifestHash := cb.deriveShaHashes manifest
      let block1 := { block with header := block.header.setManifestHash manifestHash }
      let rollupE : Except CollabErr (Option (List Transaction)) :=
        if ctx = .zone then
          if cb.isDomCoincident parent.header then .ok (some parent.etxs)
          else
            match cb.collectEtxRollup parent with
            | .error e => .error e
            | .ok r => .ok (some (r ++ parent.etxs))
        else .ok none
      match rollupE with
      | .error e => .error e
      | .ok rollup? =>
        let block2 :=
          match rollup? with
          | some r =>
            { block1 with header := block1.header.setEtxRollupHash (cb.deriveShaTxs r) }
          | none => block1
        let cache' := AddPendingBlockBody cb.rlpHash3 cap cache block2.header block2.body
        .ok (block2, cache')

/-! ### Concrete fixtures used by witnesses and counterexamples -/

/-- LRU `Peek` collapsed to the stored body pointer (a missing key reads
as a nil pointer). -/
def peekD (c : PBCache) (k : Hash) : Option Body :=
  (cachePeek c k).getD none

/-- The gas pool of the inclusion-loop entry after nil-initialization
(`worker.go:680-682`). -/
def gasAfterInit (env : environment) : Nat :=
  match env.gasPool with
  | none => env.header.gasLimit
  | some g => g

/-- The body blobs `StorePendingBlockBody` writes for a cache with
pairwise-distinct keys over an initially empty blob table: one entry per
non-empty-sentinel key, in key order. -/
def storedBlobs (c : PBCache) (ks : List Hash) : List (Hash × Option Body) :=
  (ks.filter (fun k => k ≠ EmptyBodyHash)).map (fun k => (k, peekD c k))

/-- A header fixture. -/
def fixHeader : Header :=
  { parentHash := 9, number := 4, time := 11, gasLimit := 100000, gasUsed := 0,
    baseFee := 3, coinbase := 5, manifestHash := 0, etxRollupHash := 0,
    uncleHash := 21, txHash := 22, etxHash := 23 }

/-- An environment fixture with a funded gas pool. -/
def fixEnv : environment :=
  { signer := fun tx => tx.nonce + 100, state := ⟨0, 0, 0, 0⟩, ancestors := [50],
    family := [60], tcount := 0, gasPool := some 30000, coinbase := 5,
    header := fixHeader, txs := [], etxs := [], subManifest := [],
    receipts := [], uncles := [], externalGasUsed := 0, externalBlockLength := 0 }

/-- C1: a transaction, a one-position iterator over naturals, an
execution function that always reports `GasLimitReached`, and the loop
state at entry. -/
def c1Tx : Transaction := ⟨1, 0⟩

/-- C1 iterator fixture: shift and pop just move a counter. -/
def c1Iter : TxIter Nat :=
  { peek := fun _ => some c1Tx, shift := fun n _ _ => n + 1, pop := fun n => n + 2 }

/-- C1 execution fixture: every transaction hits the block gas limit. -/
def c1Apply : ApplyTxFn :=
  fun st gp gu _ _ _ => { state := st, gasPool := gp, gasUsed := gu,
                          result := .error .gasLimitReached }

/-- C1 loop-state fixture. -/
def c1State : LoopState Nat :=
  { env := fixEnv, iter := 0, logs := [], adjusts := [], published := none }

/-- C1: the environment after the failed commit: the transaction hash was
prepared into the state, the gas-pool write-back is unchanged. -/
def c1EnvErr : environment := { fixEnv with state := ⟨0, 0, 1, 0⟩ }

/-- C2 fixtures: an iterator that is immediately drained. -/
def c2Iter : TxIter Nat :=
  { peek := fun _ => none, shift := fun n _ _ => n, pop := fun n => n }

/-- C2 execution fixture (never reached: the interrupt fires first). -/
def c2Apply : ApplyTxFn :=
  fun st gp gu _ _ _ => { state := st, gasPool := gp, gasUsed := gu,
                          result := .error .unknown }

/-- C3 execution fixture: success with a successful receipt carrying one
cross-context transaction and one log. -/
def c3Receipt : Receipt := { status := 1, etxs := [⟨42, 3⟩], logs := [7], gasUsed := 21000 }

/-- C3: the apply function consumes 21000 gas and returns `c3Receipt`. -/
def c3Apply : ApplyTxFn :=
  fun st gp gu _ _ _ =>
    { state := { st with data := st.data + 1 }, gasPool := gp - 21000,
      gasUsed := gu + 21000, result := .ok c3Receipt }

/-- C3 transaction fixture. -/
def c3Tx : Transaction := ⟨8, 2⟩

/-- C4: two placeholder uncle headers already admitted. -/
def c4Uncle1 : Header := { fixHeader with number := 10, parentHash := 50 }

/-- C4: second admitted uncle. -/
def c4Uncle2 : Header := { fixHeader with number := 20, parentHash := 50 }

/-- C4: a third candidate whose four checks all pass. -/
def c4Uncle3 : Header := { fixHeader with number := 30, parentHash := 50 }

/-- C4: an environment already holding two uncles (hashes 10 and 20 under
the by-number hash fixture), with ancestor 50 and empty family. -/
def c4Env2 : environment :=
  { fixEnv with family := [], uncles := [(10, c4Uncle1), (20, c4Uncle2)] }

/-- C4: the result of admitting the third uncle: three entries. -/
def c4Env3 : environment :=
  { c4Env2 with uncles := c4Env2.uncles ++ [(30, c4Uncle3)] }

/-- C4: the header-hash fixture: a header's hash is its number. -/
def hashByNumber : Header → Hash := fun h => h.number

/-- C5: collaborator fixture: ZONE context, parent not dom-coincident,
manifest collection yields `[41]`, rollup collection yields one
transaction, `DeriveSha` is the list length (plus 100 for transaction
lists), the RLP body fingerprint the sum of the three roots. -/
def c5Collab : Collab :=
  { finalizeAndAssemble := fun h _ txs uncles etxs _ _ =>
      .ok { header := h, txs := txs, uncles := uncles, etxs := etxs, hash := 55 },
    isDomCoincident := fun _ => false,
    collectBlockManifest := fun _ => .ok [41],
    collectEtxRollup := fun _ => .ok [⟨77, 0⟩],
    deriveShaHashes := fun l => l.length,
    deriveShaTxs := fun l => 100 + l.length,
    rlpHash3 := fun a b c => a + b + c }

/-- C5: the parent block fixture with one external transaction. -/
def c5Parent : Block :=
  { header := { fixHeader with number := 3 }, txs := [], uncles := [],
    etxs := [⟨88, 0⟩], hash := 40 }

/-- C5: the run of `FinalizeAssembleAndBroadcast` on the fixtures. -/
def c5Run : Except CollabErr (Block × PBCache) :=
  FinalizeAssembleAndBroadcast .zone c5Collab pendingBlockBodyLimit []
    fixHeader c5Parent ⟨0, 0, 0, 0⟩ [] [] [] [] []

/-- C5: the block the run produces. -/
def c5Blk : Block :=
  match c5Run with
  | .ok (b, _) => b
  | .error _ => default

/-- C5: the cache the run produces. -/
def c5Cache : PBCache :=
  match c5Run with
  | .ok (_, c) => c
  | .error _ => []

/-- C6: a worker whose pending-body LRU holds one non-empty body under
fingerprint 5 and whose on-disk table is empty. -/
def c6Body : Body := ⟨[⟨1, 0⟩], [], []⟩

/-- C6: the worker fixture. -/
def c6Worker : Worker :=
  { running := false, newTxs := 0, current := none, localUncles := [],
    remoteUncles := [], pendingBlockBody := [(5, some c6Body)],
    workerDb := ⟨[], []⟩, snapshotBlock := none, snapshotReceipts := [],
    snapshotState := none }

/-- C7: an uncle block exactly `staleThreshold` blocks behind head 7. -/
def c7Block : Block :=
  { header := { fixHeader with number := 0 }, txs := [], uncles := [],
    etxs := [], hash := 1 }

/-- C7: a bare worker fixture. -/
def c7Worker : Worker :=
  { running := false, newTxs := 0, current := none, localUncles := [],
    remoteUncles := [], pendingBlockBody := [], workerDb := ⟨[], []⟩,
    snapshotBlock := none, snapshotReceipts := [], snapshotState := none }

/-- C8: a transaction arriving in the new-tx event. -/
def c8Tx : Transaction := ⟨2, 0⟩

/-- C8 iterator fixture. -/
def c8Iter : TxIter Nat :=
  { peek := fun _ => none, shift := fun n _ _ => n, pop := fun n => n }

/-- C8: iterator construction fixture. -/
def c8MkTxSet : MkTxSetFn Nat := fun _ _ => 0

/-- C8: execution fixture (unused: the guard fires first). -/
def c8Apply : ApplyTxFn :=
  fun st gp gu _ _ _ => { state := st, gasPool := gp, gasUsed := gu,
                          result := .error .unknown }

/-- C8: block-assembly fixture. -/
def c8NewBlock : NewBlockFn :=
  fun h txs uncles etxs _ _ => { header := h, txs := txs, uncles := uncles,
                                 etxs := etxs, hash := 0 }

/-- C8: a non-sealing worker whose current environment has only 20999 gas
left, below `TxGas`. -/
def c8Worker : Worker :=
  { running := false, newTxs := 0,
    current := some { fixEnv with gasPool := some 20999 },
    localUncles := [], remoteUncles := [], pendingBlockBody := [],
    workerDb := ⟨[], []⟩, snapshotBlock := none, snapshotReceipts := [],
    snapshotState := none }

/-- C8: a sealing worker (the arm falls through to the counter bump). -/
def c8RunWorker : Worker := { c8Worker with running := true }

/-- C9: an environment with external gas accounting populated. -/
def c9Env : environment :=
  { fixEnv with externalGasUsed := 60000, externalBlockLength := 2 }

/-- C9: the parent block. -/
def c9Parent : Block :=
  { header := { fixHeader with gasUsed := 30000, gasLimit := 120000 },
    txs := [], uncles := [], etxs := [], hash := 2 }

/-- C10: a worker with no snapshot state yet. -/
def c10Worker : Worker :=
  { running := false, newTxs := 0, current := none, localUncles := [],
    remoteUncles := [], pendingBlockBody := [], workerDb := ⟨[], []⟩,
    snapshotBlock := none, snapshotReceipts := [], snapshotState := none }

/-- C10: block-assembly fixture. -/
def c10NewBlock : NewBlockFn :=
  fun h txs uncles etxs _ _ => { header := h, txs := txs, uncles := uncles,
                                 etxs := etxs, hash := 0 }

/-- C10: an environment fixture of its own. -/
def c10Env : environment := { fixEnv with state := ⟨3, 9, 0, 0⟩ }

/-! ### Theorems -/

/-- C9: under the precondition that `externalBlockLength + 1 ≠ 0` (the
collaborator has populated the field), `adjustGasLimit` sets the header
gas limit to exactly `CalcGasLimit(parent.gasLimit,
(parent.gasUsed + externalGasUsed) / (externalBlockLength + 1))` in
unsigned 64-bit arithmetic, and leaves every other header field
unchanged. -/
theorem adjustGasLimit_sets_only_gasLimit (calcGL : Nat → Nat → Nat)
    (env : environment) (parent : Block)
    (_h : env.externalBlockLength + 1 ≠ 0) :
    (adjustGasLimit calcGL env parent).header.gasLimit =
      calcGL parent.header.gasLimit
        (uint64 (parent.header.gasUsed + env.externalGasUsed) /
          uint64OfInt (env.externalBlockLength + 1))
    ∧ (adjustGasLimit calcGL env parent).header.parentHash = env.header.parentHash
    ∧ (adjustGasLimit calcGL env parent).header.number = env.header.number
    ∧ (adjustGasLimit calcGL env parent).header.time = env.header.time
    ∧ (adjustGasLimit calcGL env parent).header.gasUsed = env.header.gasUsed
    ∧ (adjustGasLimit calcGL env parent).header.baseFee = env.header.baseFee
    ∧ (adjustGasLimit calcGL env parent).header.coinbase = env.header.coinbase
    ∧ (adjustGasLimit calcGL env parent).header.manifestHash = env.header.manifestHash
    ∧ (adjustGasLimit calcGL env parent).header.etxRollupHash = env.header.etxRollupHash
    ∧ (adjustGasLimit calcGL env parent).header.uncleHash = env.header.uncleHash
    ∧ (adjustGasLimit calcGL env parent).header.txHash = env.header.txHash
    ∧ (adjustGasLimit calcGL env parent).header.etxHash = env.header.etxHash := by
  refine ⟨rfl, rfl, rfl, rfl, rfl, rfl, rfl, rfl, rfl, rfl, rfl, rfl⟩

/-- C9 witness: the theorem applied to the concrete fixture environment
(`externalBlockLength = 2`, so the precondition holds), evaluated. -/
theorem adjustGasLimit_sets_only_gasLimit_witness :
    (adjustGasLimit (fun a b => a + b) c9Env c9Parent).header.gasLimit =
      (fun a b => a + b) c9Parent.header.gasLimit
        (uint64 (c9Parent.header.gasUsed + c9Env.externalGasUsed) /
          uint64OfInt (c9Env.externalBlockLength + 1))
    ∧ (adjustGasLimit (fun a b => a + b) c9Env c9Parent).header.gasUsed =
      c9Env.header.gasUsed :=
  ⟨(adjustGasLimit_sets_only_gasLimit (fun a b => a + b) c9Env c9Parent
      (by decide)).1,
   (adjustGasLimit_sets_only_gasLimit (fun a b => a + b) c9Env c9Parent
      (by decide)).2.2.2.2.1⟩

/-- C10: with no snapshot state, `pending` returns `(nil, nil)` and never
a block with a nil state; `pendingBlock` and `pendingBlockAndReceipts`
return the snapshot fields unguarded; with a snapshot state present -
in particular right after a ZONE `updateSnapshot` - `pending` returns the
snapshot block together with a fresh copy (same content, different
object) of the stored snapshot state. -/
theorem pending_snapshot_spec (w : Worker) (env : environment) (nb : NewBlockFn) :
    (w.snapshotState = none → pending w = (none, none))
    ∧ pendingBlock w = w.snapshotBlock
    ∧ pendingBlockAndReceipts w = (w.snapshotBlock, w.snapshotReceipts)
    ∧ (∀ s, w.snapshotState = some s →
        pending w = (w.snapshotBlock, some s.copy) ∧
        s.copy.data = s.data ∧ s.copy.id ≠ s.id)
    ∧ (updateSnapshot .zone nb w env).snapshotState = some env.state.copy
    ∧ pending (updateSnapshot .zone nb w env) =
        ((updateSnapshot .zone nb w env).snapshotBlock, some env.state.copy.copy)
    ∧ env.state.copy.copy.data = env.state.copy.data
    ∧ env.state.copy.copy.id ≠ env.state.copy.id := by
  refine ⟨?_, rfl, rfl, ?_, rfl, rfl, rfl, ?_⟩
  · intro h
    simp [pending, h]
  · intro s hs
    exact ⟨by simp [pending, hs], rfl, Nat.succ_ne_self s.id⟩
  · exact Nat.succ_ne_self _

/-- C10 witness: the theorem applied to a worker with no snapshot state,
the nil-guard conjunct discharged concretely. -/
theorem pending_snapshot_spec_witness :
    pending c10Worker = (none, none) :=
  (pending_snapshot_spec c10Worker c10Env c10NewBlock).1 rfl

/-- C7 counterexample: with the chain head at 7, an uncle of number 0 is
exactly `staleThreshold` = 7 blocks behind - not *more* than 7 - yet the
10-second sweep deletes it, refuting the claim that only uncles more
than 7 blocks behind are removed. -/
theorem staleFilter_boundary_counterexample :
    staleFilter 7 [(1, c7Block)] = []
    ∧ ¬ (c7Block.header.number + staleThreshold < 7) := by
  refine ⟨rfl, by decide⟩

/-- C7 amended: the tick arm filters both uncle pools, and an entry
survives the sweep iff its number plus `staleThreshold` exceeds the
chain-head number - i.e. an uncle is removed exactly when it is at least
(not strictly more than) 7 blocks behind the head. -/
theorem mainLoopTick_spec (head : Nat) (w : Worker) :
    (mainLoopTick head w).localUncles = staleFilter head w.localUncles
    ∧ (mainLoopTick head w).remoteUncles = staleFilter head w.remoteUncles
    ∧ ∀ (uncles : List (Hash × Block)) (p : Hash × Block),
        p ∈ staleFilter head uncles ↔
          p ∈ uncles ∧ ¬ (p.2.header.number + staleThreshold ≤ head) := by
  refine ⟨rfl, rfl, ?_⟩
  intro uncles p
  simp [staleFilter]

/-- C7 witness: the amended theorem applied at the boundary fixture: the
boundary uncle is not a member of the sweep's output. -/
theorem mainLoopTick_spec_witness :
    ¬ ((1, c7Block) ∈ staleFilter 7 [(1, c7Block)]) := by
  intro hmem
  have h := ((mainLoopTick_spec 7 c7Worker).2.2 [(1, c7Block)] (1, c7Block)).mp hmem
  exact h.2 (by decide)

/-- Helper: a successful `commitUncle` appends exactly the one new entry. -/
theorem commitUncle_ok_uncles (hHash : Header → Hash) (env env' : environment)
    (uncle : Header) (h : commitUncle hHash env uncle = .ok env') :
    env'.uncles = env.uncles ++ [(hHash uncle, uncle)] := by
  simp only [commitUncle] at h
  split at h
  · exact absurd h (by simp)
  · split at h
    · exact absurd h (by simp)
    · split at h
      · exact absurd h (by simp)
      · split at h
        · exact absurd h (by simp)
        · cases h
          rfl

/-- C4 counterexample: an environment already holding two uncles admits
a third candidate that passes all four checks, growing the uncle map to
three entries - `commitUncle` itself does not preserve the bound
`|uncles| ≤ 2`. -/
theorem commitUncle_growth_counterexample :
    commitUncle hashByNumber c4Env2 c4Uncle3 = .ok c4Env3
    ∧ c4Env2.uncles.length = 2
    ∧ c4Env3.uncles.length = 3 :=
  ⟨rfl, rfl, rfl⟩

/-- C4 amended: `commitUncle` rejects, with a distinct error each, a
candidate whose hash is already in the uncle set, whose parent equals
the draft header's parent, whose parent is not a known ancestor, or
whose hash is in the family; otherwise it inserts the candidate, growing
the set by exactly one.  The bound `|uncles| ≤ 2` is not enforced by
`commitUncle` but by its caller: the `commitUncles` walk of
`prepareWork` stops as soon as two uncles are held, so it preserves the
bound. -/
theorem commitUncle_spec (hHash : Header → Hash) (env : environment)
    (uncle : Header) :
    ((assocLookup env.uncles (hHash uncle)).isSome →
      commitUncle hHash env uncle = .error .notUnique)
    ∧ (¬ (assocLookup env.uncles (hHash uncle)).isSome →
      env.header.parentHash = uncle.parentHash →
      commitUncle hHash env uncle = .error .isSibling)
    ∧ (¬ (assocLookup env.uncles (hHash uncle)).isSome →
      ¬ env.header.parentHash = uncle.parentHash →
      ¬ env.ancestors.contains uncle.parentHash →
      commitUncle hHash env uncle = .error .parentUnknown)
    ∧ (¬ (assocLookup env.uncles (hHash uncle)).isSome →
      ¬ env.header.parentHash = uncle.parentHash →
      env.ancestors.contains uncle.parentHash →
      env.family.contains (hHash uncle) →
      commitUncle hHash env uncle = .error .alreadyIncluded)
    ∧ (¬ (assocLookup env.uncles (hHash uncle)).isSome →
      ¬ env.header.parentHash = uncle.parentHash →
      env.ancestors.contains uncle.parentHash →
      ¬ env.family.contains (hHash uncle) →
      commitUncle hHash env uncle =
        .ok { env with uncles := env.uncles ++ [(hHash uncle, uncle)] })
    ∧ ∀ (env₂ : environment) (blocks : List (Hash × Block)),
        env₂.uncles.length ≤ 2 →
        (commitUncles hHash env₂ blocks).uncles.length ≤ 2 := by
  refine ⟨?_, ?_, ?_, ?_, ?_, ?_⟩
  · intro h1
    simp only [commitUncle, if_pos h1]
  · intro h1 h2
    simp only [commitUncle, if_neg h1, if_pos h2]
  · intro h1 h2 h3
    simp only [commitUncle, if_neg h1, if_neg h2, if_pos h3]
  · intro h1 h2 h3 h4
    have h3' : ¬ ¬ env.ancestors.contains uncle.parentHash := not_not_intro h3
    simp only [commitUncle, if_neg h1, if_neg h2, if_neg h3', if_pos h4]
  · intro h1 h2 h3 h4
    have h3' : ¬ ¬ env.ancestors.contains uncle.parentHash := not_not_intro h3
    simp only [commitUncle, if_neg h1, if_neg h2, if_neg h3', if_neg h4]
  · intro env₂ blocks
    induction blocks generalizing env₂ with
    | nil => intro hle; exact hle
    | cons b bs ih =>
      intro hle
      obtain ⟨bh, bb⟩ := b
      simp only [commitUncles]
      split
      · exact hle
      · rename_i hne
        cases hc : commitUncle hHash env₂ bb.header with
        | ok env' =>
          simp only [hc]
          apply ih
          have hlen := commitUncle_ok_uncles hHash env₂ env' bb.header hc
          have h1 : env'.uncles.length = env₂.uncles.length + 1 := by
            rw [hlen]
            simp
          omega
        | error e =>
          simp only [hc]
          exact ih env₂ hle

/-- C4 witness: the amended theorem's success conjunct applied to the
fixture environment and candidate. -/
theorem commitUncle_spec_witness :
    commitUncle hashByNumber c4Env2 c4Uncle3 =
      .ok { c4Env2 with uncles := c4Env2.uncles ++ [(hashByNumber c4Uncle3, c4Uncle3)] } :=
  (commitUncle_spec hashByNumber c4Env2 c4Uncle3).2.2.2.2.1
    (by decide) (by decide) (by decide) (by decide)

/-- C3: `commitTransaction` is atomic per transaction.  On error the
state equals the entry state (the revert to the entry snapshot), and the
transaction, receipt and etx lists and the whole header - in particular
its gas used - are unchanged.  On success exactly one transaction and
one receipt are appended (so `|txs| = |receipts|` is preserved), the
updated gas-used is written back to the header, the receipt's logs are
returned, and the receipt's cross-context transactions are appended to
`env.etxs` exactly when the receipt status is successful. -/
theorem commitTransaction_atomic (applyTx : ApplyTxFn) (env : environment)
    (tx? : Option Transaction) (env' : environment)
    (res : Except TxError (List Log))
    (h : commitTransaction applyTx env tx? = (env', res)) :
    (∀ e, res = .error e →
      env'.state = env.state ∧ env'.txs = env.txs ∧
      env'.receipts = env.receipts ∧ env'.etxs = env.etxs ∧
      env'.header = env.header ∧ env'.header.gasUsed = env.header.gasUsed)
    ∧ (∀ logs, res = .ok logs →
      ∃ tx receipt, tx? = some tx ∧
        (applyTx env.state (env.gasPool.getD 0) env.header.gasUsed env.header
          env.coinbase tx).result = .ok receipt ∧
        env'.txs = env.txs ++ [tx] ∧
        env'.receipts = env.receipts ++ [receipt] ∧
        env'.header = env.header.setGasUsed
          (applyTx env.state (env.gasPool.getD 0) env.header.gasUsed env.header
            env.coinbase tx).gasUsed ∧
        logs = receipt.logs ∧
        env'.etxs = env.etxs ++
          (if receipt.status = ReceiptStatusSuccessful then receipt.etxs else []) ∧
        (env.txs.length = env.receipts.length →
          env'.txs.length = env'.receipts.length)) := by
  cases tx? with
  | none =>
    simp only [commitTransaction] at h
    cases h
    constructor
    · intro e _
      exact ⟨rfl, rfl, rfl, rfl, rfl, rfl⟩
    · intro logs hres
      exact absurd hres (by simp)
  | some tx =>
    simp only [commitTransaction] at h
    cases hres : (applyTx env.state (env.gasPool.getD 0) env.header.gasUsed
        env.header env.coinbase tx).result with
    | error e0 =>
      rw [hres] at h
      cases h
      constructor
      · intro e _
        exact ⟨rfl, rfl, rfl, rfl, rfl, rfl⟩
      · intro logs hok
        exact absurd hok (by simp)
    | ok receipt =>
      rw [hres] at h
      cases h
      constructor
      · intro e habs
        exact absurd habs (by simp)
      · intro logs hok
        refine ⟨tx, receipt, rfl, hres, rfl, rfl, rfl, ?_, rfl, ?_⟩
        · cases hok
          rfl
        · intro hlen
          simp [hlen]

/-- C3 witness: the theorem applied to the success fixture: the
transaction and its successful receipt are appended and the receipt's
cross-context transaction lands in `env.etxs`. -/
theorem commitTransaction_atomic_witness :
    (commitTransaction c3Apply fixEnv (some c3Tx)).1.txs = fixEnv.txs ++ [c3Tx]
    ∧ (commitTransaction c3Apply fixEnv (some c3Tx)).1.receipts =
        fixEnv.receipts ++ [c3Receipt] := by
  have h := commitTransaction_atomic c3Apply fixEnv (some c3Tx)
    (commitTransaction c3Apply fixEnv (some c3Tx)).1
    (commitTransaction c3Apply fixEnv (some c3Tx)).2 rfl
  obtain ⟨tx, receipt, htx, hres, htxs, hrec, _, _, _, _⟩ := h.2 c3Receipt.logs rfl
  cases htx
  have hrcpt : receipt = c3Receipt := by
    have : (c3Apply fixEnv.state (fixEnv.gasPool.getD 0) fixEnv.header.gasUsed
        fixEnv.header fixEnv.coinbase c3Tx).result = .ok c3Receipt := rfl
    rw [this] at hres
    cases hres
    rfl
  rw [hrcpt] at hrec
  exact ⟨htxs, hrec⟩

/-- C1: whenever the inclusion loop attempts a transaction (the gas pool
is at least `TxGas` and the iterator peeks one), the outcome is
dispatched exactly per the table: `GasLimitReached` pops the sender,
`NonceTooLow` shifts, `NonceTooHigh` pops, success appends the logs,
increments `tcount` and shifts, `TxTypeNotSupported` pops, and every
other error shifts - and in all cases the loop continues: no
per-transaction error exits the loop or fails the cycle. -/
theorem commitTransactions_dispatch {ι : Type} (it : TxIter ι)
    (applyTx : ApplyTxFn) (s : LoopState ι) (tx : Transaction)
    (env' : environment) (res : Except TxError (List Log))
    (hgas : ¬ (s.env.gasPool.getD 0 < TxGas))
    (hpeek : it.peek s.iter = some tx)
    (hcommit : commitTransaction applyTx
        { s.env with state := s.env.state.prepare tx.hash s.env.tcount }
        (some tx) = (env', res)) :
    (res = .error .gasLimitReached →
      commitTransactionsInner it applyTx s =
        .cont { s with env := env', iter := it.pop s.iter })
    ∧ (res = .error .nonceTooLow →
      commitTransactionsInner it applyTx s =
        .cont { s with env := env', iter := it.shift s.iter (s.env.signer tx) false })
    ∧ (res = .error .nonceTooHigh →
      commitTransactionsInner it applyTx s =
        .cont { s with env := env', iter := it.pop s.iter })
    ∧ (∀ logs, res = .ok logs →
      commitTransactionsInner it applyTx s =
        .cont { s with env := { env' with tcount := env'.tcount + 1 },
                       iter := it.shift s.iter (s.env.signer tx) false,
                       logs := s.logs ++ logs })
    ∧ (res = .error .txTypeNotSupported →
      commitTransactionsInner it applyTx s =
        .cont { s with env := env', iter := it.pop s.iter })
    ∧ (∀ e, res = .error e → e ≠ .gasLimitReached → e ≠ .nonceTooLow →
        e ≠ .nonceTooHigh → e ≠ .txTypeNotSupported →
      commitTransactionsInner it applyTx s =
        .cont { s with env := env', iter := it.shift s.iter (s.env.signer tx) false })
    ∧ ∃ s', commitTransactionsInner it applyTx s = .cont s' := by
  have hinner : commitTransactionsInner it applyTx s =
      match (env', res) with
      | (env', .error .gasLimitReached) =>
        .cont { s with env := env', iter := it.pop s.iter }
      | (env', .error .nonceTooLow) =>
        .cont { s with env := env', iter := it.shift s.iter (s.env.signer tx) false }
      | (env', .error .nonceTooHigh) =>
        .cont { s with env := env', iter := it.pop s.iter }
      | (env', .ok logs) =>
        .cont { s with env := { env' with tcount := env'.tcount + 1 },
                       iter := it.shift s.iter (s.env.signer tx) false,
                       logs := s.logs ++ logs }
      | (env', .error .txTypeNotSupported) =>
        .cont { s with env := env', iter := it.pop s.iter }
      | (env', .error _) =>
        .cont { s with env := env', iter := it.shift s.iter (s.env.signer tx) false } := by
    rw [commitTransactionsInner, if_neg hgas, hpeek]
    dsimp only
    rw [hcommit]
  refine ⟨?_, ?_, ?_, ?_, ?_, ?_, ?_⟩
  · intro hr
    rw [hinner, hr]
  · intro hr
    rw [hinner, hr]
  · intro hr
    rw [hinner, hr]
  · intro logs hr
    rw [hinner, hr]
  · intro hr
    rw [hinner, hr]
  · intro e hr h1 h2 h3 h4
    rw [hinner, hr]
    cases e with
    | gasLimitReached => exact absurd rfl h1
    | nonceTooLow => exact absurd rfl h2
    | nonceTooHigh => exact absurd rfl h3
    | txTypeNotSupported => exact absurd rfl h4
    | txNotFound => rfl
    | unknown => rfl
  · rw [hinner]
    cases res with
    | error e => cases e <;> exact ⟨_, rfl⟩
    | ok logs => exact ⟨_, rfl⟩

/-- C1 witness: the dispatch theorem applied to the gas-limit fixture:
the always-`GasLimitReached` execution makes the loop pop the sender and
continue. -/
theorem commitTransactions_dispatch_witness :
    commitTransactionsInner c1Iter c1Apply c1State =
      .cont { c1State with env := c1EnvErr, iter := c1Iter.pop c1State.iter } :=
  (commitTransactions_dispatch c1Iter c1Apply c1State c1Tx c1EnvErr
    (.error .gasLimitReached) (by decide) rfl rfl).1 rfl

/-- Helper: the loop body past the interrupt check only breaks or
continues - it never performs the interrupt-branch `return`. -/
theorem commitTransactionsInner_shape {ι : Type} (it : TxIter ι)
    (applyTx : ApplyTxFn) (s : LoopState ι) :
    (∃ s', commitTransactionsInner it applyTx s = .brk s') ∨
    (∃ s', commitTransactionsInner it applyTx s = .cont s') := by
  rw [commitTransactionsInner]
  split
  · exact .inl ⟨_, rfl⟩
  · split
    · exact .inl ⟨_, rfl⟩
    · dsimp only
      split <;> exact .inr ⟨_, rfl⟩

/-- Helper: a `return` out of the loop happens only inside the interrupt
branch, and returns exactly the comparison of the interrupt word with
`NewHead` (value 1). -/
theorem commitTransactionsStep_ret {ι : Type} (it : TxIter ι)
    (applyTx : ApplyTxFn) (interrupt : Option Int) (s : LoopState ι)
    (b : Bool) (s' : LoopState ι)
    (h : commitTransactionsStep it applyTx interrupt s = .ret b s') :
    ∃ v, interrupt = some v ∧ v ≠ 0 ∧ b = decide (v = 1) := by
  cases interrupt with
  | none =>
    simp only [commitTransactionsStep] at h
    rcases commitTransactionsInner_shape it applyTx s with ⟨s0, h0⟩ | ⟨s0, h0⟩ <;>
      rw [h0] at h <;> exact absurd h (by simp)
  | some v =>
    simp only [commitTransactionsStep] at h
    by_cases hv : v = 0
    · rw [if_neg (not_not_intro hv)] at h
      rcases commitTransactionsInner_shape it applyTx s with ⟨s0, h0⟩ | ⟨s0, h0⟩ <;>
        rw [h0] at h <;> exact absurd h (by simp)
    · rw [if_pos hv] at h
      refine ⟨v, rfl, hv, ?_⟩
      cases h
      rfl

/-- Helper: a `break` out of the loop can only happen when the interrupt
word does not hold `NewHead`. -/
theorem commitTransactionsStep_brk_ne {ι : Type} (it : TxIter ι)
    (applyTx : ApplyTxFn) (interrupt : Option Int) (s : LoopState ι)
    (s' : LoopState ι)
    (h : commitTransactionsStep it applyTx interrupt s = .brk s') :
    interrupt ≠ some 1 := by
  intro heq
  subst heq
  simp only [commitTransactionsStep] at h
  rw [if_pos (by norm_num)] at h
  exact absurd h (by simp)

/-- Helper: whenever the fuelled loop completes, its boolean result is
`true` exactly when the interrupt word holds `NewHead` (value 1). -/
theorem commitTransactionsLoop_true_iff {ι : Type} (running : Bool)
    (it : TxIter ι) (applyTx : ApplyTxFn) (interrupt : Option Int) :
    ∀ (fuel : Nat) (s : LoopState ι) (b : Bool) (s' : LoopState ι),
      commitTransactionsLoop running it applyTx interrupt fuel s = some (b, s') →
      (b = true ↔ interrupt = some 1) := by
  intro fuel
  induction fuel with
  | zero =>
    intro s b s' h
    exact absurd h (by simp [commitTransactionsLoop])
  | succ n ih =>
    intro s b s' h
    rw [commitTransactionsLoop] at h
    cases hstep : commitTransactionsStep it applyTx interrupt s with
    | ret b0 s0 =>
      rw [hstep] at h
      simp only [Option.some.injEq, Prod.mk.injEq] at h
      obtain ⟨hb, _⟩ := h
      subst hb
      obtain ⟨v, hv, hv0, hbv⟩ :=
        commitTransactionsStep_ret it applyTx interrupt s b0 s0 hstep
      subst hv
      subst hbv
      simp
    | brk s0 =>
      rw [hstep] at h
      simp only [Option.some.injEq, Prod.mk.injEq] at h
      obtain ⟨hb, _⟩ := h
      subst hb
      constructor
      · intro habs
        exact absurd habs (by simp)
      · intro heq
        exact absurd heq (commitTransactionsStep_brk_ne it applyTx interrupt s s0 hstep)
    | cont s0 =>
      rw [hstep] at h
      exact ih s0 b s' h

/-- Helper: Go's `uint64` subtraction agrees with natural subtraction in
range. -/
theorem uint64sub_eq (a b : Nat) (hb : b ≤ a) (ha : a < 2 ^ 64) :
    uint64sub a b = a - b := by
  unfold uint64sub
  have hb' : b % 2 ^ 64 = b := Nat.mod_eq_of_lt (lt_of_le_of_lt hb ha)
  rw [hb']
  have h1 : a + 2 ^ 64 - b = a - b + 2 ^ 64 := by omega
  rw [h1, Nat.add_mod_right]
  exact Nat.mod_eq_of_lt (by omega)

/-- C2: whenever `commitTransactions` completes, it returns `true` iff
the interrupt word holds `NewHead` (value 1) - so the gas-exhaustion and
iterator-drained exits, as well as a `Resubmit` exit, all return
`false`.  When the interrupt word holds `Resubmit` (value 2), the loop
sends exactly one interval-adjust message, with `inc = true` and ratio
`(gasLimit - gasPool.Gas()) / gasLimit` floored at 1/10 (the `float64`
arithmetic modelled in exact rationals), and returns `false`. -/
theorem commitTransactions_interrupt_policy {ι : Type} (running : Bool)
    (it : TxIter ι) (applyTx : ApplyTxFn) (interrupt : Option Int)
    (fuel : Nat) (env : environment) (iter : ι) :
    (∀ b s', commitTransactions running it applyTx interrupt fuel env iter =
        some (b, s') → (b = true ↔ interrupt = some 1))
    ∧ (interrupt = some 2 → ∀ n, fuel = n + 1 →
      ∃ s', commitTransactions running it applyTx interrupt fuel env iter =
          some (false, s')
        ∧ s'.adjusts = [resubmitAdjustMsg env.header.gasLimit (gasAfterInit env)]
        ∧ (resubmitAdjustMsg env.header.gasLimit (gasAfterInit env)).inc = true
        ∧ 1 / 10 ≤ (resubmitAdjustMsg env.header.gasLimit (gasAfterInit env)).frac
        ∧ (env.header.gasLimit < 2 ^ 64 → gasAfterInit env ≤ env.header.gasLimit →
            (resubmitAdjustMsg env.header.gasLimit (gasAfterInit env)).frac =
              if ((env.header.gasLimit : ℚ) - (gasAfterInit env : ℚ)) /
                    (env.header.gasLimit : ℚ) < 1 / 10 then 1 / 10
              else ((env.header.gasLimit : ℚ) - (gasAfterInit env : ℚ)) /
                    (env.header.gasLimit : ℚ))) := by
  constructor
  · intro b s' h
    exact commitTransactionsLoop_true_iff running it applyTx interrupt fuel _ b s' h
  · intro h2 n hf
    subst h2
    subst hf
    have hmsg : ∀ gl gas : Nat, (resubmitAdjustMsg gl gas).inc = true := by
      intro gl gas
      rfl
    have hfloor : ∀ gl gas : Nat, 1 / 10 ≤ (resubmitAdjustMsg gl gas).frac := by
      intro gl gas
      unfold resubmitAdjustMsg
      dsimp only
      split
      · exact le_refl _
      · rename_i hlt
        exact le_of_not_lt hlt
    have hform : env.header.gasLimit < 2 ^ 64 →
        gasAfterInit env ≤ env.header.gasLimit →
        (resubmitAdjustMsg env.header.gasLimit (gasAfterInit env)).frac =
          if ((env.header.gasLimit : ℚ) - (gasAfterInit env : ℚ)) /
                (env.header.gasLimit : ℚ) < 1 / 10 then 1 / 10
          else ((env.header.gasLimit : ℚ) - (gasAfterInit env : ℚ)) /
                (env.header.gasLimit : ℚ) := by
      intro hlt hle
      unfold resubmitAdjustMsg
      rw [uint64sub_eq _ _ hle hlt, Nat.cast_sub hle]
    cases hgp : env.gasPool with
    | none =>
      have henv : (if env.gasPool = none then
          { env with gasPool := some env.header.gasLimit } else env) =
          { env with gasPool := some env.header.gasLimit } := by
        rw [hgp]
        simp
      refine ⟨{ env := { env with gasPool := some env.header.gasLimit },
                iter := iter, logs := [],
                adjusts := [resubmitAdjustMsg env.header.gasLimit env.header.gasLimit],
                published := none }, ?_, ?_, hmsg _ _, hfloor _ _, hform⟩
      · rw [commitTransactions]
        rw [henv, commitTransactionsLoop]
        norm_num [commitTransactionsStep]
      · simp only [gasAfterInit, hgp]
    | some g =>
      have henv : (if env.gasPool = none then
          { env with gasPool := some env.header.gasLimit } else env) = env := by
        rw [hgp]
        simp
      refine ⟨{ env := env, iter := iter, logs := [],
                adjusts := [resubmitAdjustMsg env.header.gasLimit g],
                published := none }, ?_, ?_, hmsg _ _, hfloor _ _, hform⟩
      · rw [commitTransactions]
        rw [henv, commitTransactionsLoop]
        norm_num [commitTransactionsStep, hgp]
      · simp only [gasAfterInit, hgp]

/-- C2 witness: the policy theorem applied to a drained iterator under a
`Resubmit` interrupt: one adjustment message, result `false`. -/
theorem commitTransactions_interrupt_policy_witness :
    ∃ s', commitTransactions false c2Iter c2Apply (some 2) 3 fixEnv 0 =
        some (false, s')
      ∧ s'.adjusts = [resubmitAdjustMsg fixEnv.header.gasLimit (gasAfterInit fixEnv)]
      ∧ (resubmitAdjustMsg fixEnv.header.gasLimit (gasAfterInit fixEnv)).inc = true
      ∧ 1 / 10 ≤ (resubmitAdjustMsg fixEnv.header.gasLimit (gasAfterInit fixEnv)).frac
      ∧ (fixEnv.header.gasLimit < 2 ^ 64 →
          gasAfterInit fixEnv ≤ fixEnv.header.gasLimit →
          (resubmitAdjustMsg fixEnv.header.gasLimit (gasAfterInit fixEnv)).frac =
            if ((fixEnv.header.gasLimit : ℚ) - (gasAfterInit fixEnv : ℚ)) /
                  (fixEnv.header.gasLimit : ℚ) < 1 / 10 then 1 / 10
            else ((fixEnv.header.gasLimit : ℚ) - (gasAfterInit fixEnv : ℚ)) /
                  (fixEnv.header.gasLimit : ℚ)) :=
  (commitTransactions_interrupt_policy false c2Iter c2Apply (some 2) 3
    fixEnv 0).2 rfl 2 rfl

/-- C8 counterexample: a non-sealing worker with a current environment
whose gas pool holds 20999 (below `TxGas`) receives a one-transaction
event, and the arm returns with the worker - including the `newTxs`
counter - completely unchanged: the `continue` skips the counter bump,
refuting the claim that the counter is incremented regardless of the
remaining gas. -/
theorem handleTxsEvent_skip_counterexample :
    handleTxsEvent .zone c8Iter c8MkTxSet c8Apply c8NewBlock 5 c8Worker [c8Tx] =
      some c8Worker
    ∧ c8Worker.newTxs = 0
    ∧ ([c8Tx] : List Transaction).length = 1 :=
  ⟨rfl, rfl, rfl⟩

/-- C8 amended: the new-tx arm bumps the `newTxs` counter by the number
of event transactions whenever the worker is sealing, has no current
environment, or has gas at least `TxGas` (or a nil gas pool) and the
inclusion loop completes; but when the worker is not sealing, a current
environment exists, and its gas pool is non-nil and below `TxGas`, the
event is skipped entirely and the counter is not incremented. -/
theorem handleTxsEvent_newTxs {ι : Type} (ctx : Ctx) (it : TxIter ι)
    (mkTxSet : MkTxSetFn ι) (applyTx : ApplyTxFn) (newBlock : NewBlockFn)
    (fuel : Nat) (w : Worker) (evTxs : List Transaction) :
    (isRunning w = true →
      handleTxsEvent ctx it mkTxSet applyTx newBlock fuel w evTxs =
        some { w with newTxs := addInt32 w.newTxs (wrap32 (evTxs.length : Int)) })
    ∧ (w.current = none →
      handleTxsEvent ctx it mkTxSet applyTx newBlock fuel w evTxs =
        some { w with newTxs := addInt32 w.newTxs (wrap32 (evTxs.length : Int)) })
    ∧ (∀ cur, isRunning w = false → w.current = some cur →
        gasPoolBelowTxGas cur.gasPool = true →
      handleTxsEvent ctx it mkTxSet applyTx newBlock fuel w evTxs = some w)
    ∧ (∀ cur b ls, isRunning w = false → w.current = some cur →
        gasPoolBelowTxGas cur.gasPool = false →
        commitTransactions (isRunning w) it applyTx none fuel cur
          (mkTxSet (bucketBySender cur.signer evTxs) cur.header.baseFee) =
          some (b, ls) →
      ∃ w', handleTxsEvent ctx it mkTxSet applyTx newBlock fuel w evTxs = some w'
        ∧ w'.newTxs = addInt32 w.newTxs (wrap32 (evTxs.length : Int))) := by
  refine ⟨?_, ?_, ?_, ?_⟩
  · intro hr
    cases hcur : w.current with
    | none => simp [handleTxsEvent, hcur, hr]
    | some cur => simp [handleTxsEvent, hcur, hr]
  · intro hcur
    cases hr : isRunning w with
    | false => simp [handleTxsEvent, hcur, hr]
    | true => simp [handleTxsEvent, hcur, hr]
  · intro cur hr hcur hgas
    simp [handleTxsEvent, hcur, hr, hgas]
  · intro cur b ls hr hcur hgas hloop
    rw [hr] at hloop
    simp only [handleTxsEvent, hcur, hr, hgas, Bool.false_eq_true, if_false, hloop]
    refine ⟨_, rfl, ?_⟩
    dsimp only
    split
    · rfl
    · rfl

/-- C8 witness: the amended theorem applied to a sealing worker: the
counter is bumped by the event length. -/
theorem handleTxsEvent_newTxs_witness :
    handleTxsEvent .zone c8Iter c8MkTxSet c8Apply c8NewBlock 5 c8RunWorker [c8Tx] =
      some { c8RunWorker with
             newTxs := addInt32 c8RunWorker.newTxs
               (wrap32 (([c8Tx] : List Transaction).length : Int)) } :=
  (handleTxsEvent_newTxs .zone c8Iter c8MkTxSet c8Apply c8NewBlock 5
    c8RunWorker [c8Tx]).1 rfl

/-- C5: `FinalizeAssembleAndBroadcast` sets the manifest hash to
`DeriveSha` of: the empty manifest in PRIME; `[parent.hash]` when the
engine reports the parent dom-coincident; otherwise the collected
manifest with the draft header's parent hash appended.  In ZONE it also
sets the etx-rollup hash to `DeriveSha` of the parent's external
transactions when the parent is dom-coincident, and otherwise of the
collected rollup with the parent's external transactions appended;
outside ZONE the assembled block's etx-rollup hash is left untouched. -/
theorem finalizeAssembleAndBroadcast_hashes (ctx : Ctx) (cb : Collab)
    (cap : Nat) (cache : PBCache) (header : Header) (parent : Block)
    (st : StateDB) (txs : List Transaction) (uncles : List Header)
    (etxs : List Transaction) (subManifest : List Hash)
    (receipts : List Receipt) (blk : Block) (cache' : PBCache)
    (h : FinalizeAssembleAndBroadcast ctx cb cap cache header parent st txs
        uncles etxs subManifest receipts = .ok (blk, cache')) :
    (ctx = .prime → blk.header.manifestHash = cb.deriveShaHashes [])
    ∧ (ctx ≠ .prime → cb.isDomCoincident parent.header = true →
        blk.header.manifestHash = cb.deriveShaHashes [parent.hash])
    ∧ (∀ m, ctx ≠ .prime → cb.isDomCoincident parent.header = false →
        cb.collectBlockManifest parent.header = .ok m →
        blk.header.manifestHash = cb.deriveShaHashes (m ++ [header.parentHash]))
    ∧ (ctx = .zone → cb.isDomCoincident parent.header = true →
        blk.header.etxRollupHash = cb.deriveShaTxs parent.etxs)
    ∧ (∀ r, ctx = .zone → cb.isDomCoincident parent.header = false →
        cb.collectEtxRollup parent = .ok r →
        blk.header.etxRollupHash = cb.deriveShaTxs (r ++ parent.etxs))
    ∧ (∀ b0, ctx ≠ .zone →
        cb.finalizeAndAssemble header st txs uncles etxs subManifest receipts =
          .ok b0 →
        blk.header.etxRollupHash = b0.header.etxRollupHash) := by
  cases hfa : cb.finalizeAndAssemble header st txs uncles etxs subManifest receipts with
  | error e =>
    rw [FinalizeAssembleAndBroadcast, hfa] at h
    exact absurd h (by simp)
  | ok b0 =>
    rw [FinalizeAssembleAndBroadcast, hfa] at h
    cases ctx with
    | prime =>
      simp at h
      obtain ⟨hblk, -⟩ := h
      subst hblk
      refine ⟨?_, ?_, ?_, ?_, ?_, ?_⟩
      · intro _
        rfl
      · intro hne _
        exact absurd rfl hne
      · intro m hne _ _
        exact absurd rfl hne
      · intro hz _
        exact absurd hz (by decide)
      · intro r hz _ _
        exact absurd hz (by decide)
      · intro b0' _ hfa'
        cases hfa'
        rfl
    | region =>
      cases hdom : cb.isDomCoincident parent.header with
      | true =>
        simp [hdom] at h
        obtain ⟨hblk, -⟩ := h
        subst hblk
        refine ⟨?_, ?_, ?_, ?_, ?_, ?_⟩
        · intro hc
          exact absurd hc (by decide)
        · intro _ _
          rfl
        · intro m _ hd _
          exact absurd hd (by decide)
        · intro hz _
          exact absurd hz (by decide)
        · intro r hz _ _
          exact absurd hz (by decide)
        · intro b0' _ hfa'
          cases hfa'
          rfl
      | false =>
        cases hcm : cb.collectBlockManifest parent.header with
        | error e1 =>
          simp [hdom, hcm] at h
        | ok m0 =>
          simp [hdom, hcm] at h
          obtain ⟨hblk, -⟩ := h
          subst hblk
          refine ⟨?_, ?_, ?_, ?_, ?_, ?_⟩
          · intro hc
            exact absurd hc (by decide)
          · intro _ hd
            exact absurd hd (by decide)
          · intro m _ _ hm
            cases hm
            rfl
          · intro hz _
            exact absurd hz (by decide)
          · intro r hz _ _
            exact absurd hz (by decide)
          · intro b0' _ hfa'
            cases hfa'
            rfl
    | zone =>
      cases hdom : cb.isDomCoincident parent.header with
      | true =>
        simp [hdom] at h
        obtain ⟨hblk, -⟩ := h
        subst hblk
        refine ⟨?_, ?_, ?_, ?_, ?_, ?_⟩
        · intro hc
          exact absurd hc (by decide)
        · intro _ _
          rfl
        · intro m _ hd _
          exact absurd hd (by decide)
        · intro _ _
          rfl
        · intro r _ hd _
          exact absurd hd (by decide)
        · intro b0' hz _
          exact absurd rfl hz
      | false =>
        cases hcm : cb.collectBlockManifest parent.header with
        | error e1 =>
          simp [hdom, hcm] at h
        | ok m0 =>
          cases hce : cb.collectEtxRollup parent with
          | error e2 =>
            simp [hdom, hcm, hce] at h
          | ok r0 =>
            simp [hdom, hcm, hce] at h
            obtain ⟨hblk, -⟩ := h
            subst hblk
            refine ⟨?_, ?_, ?_, ?_, ?_, ?_⟩
            · intro hc
              exact absurd hc (by decide)
            · intro _ hd
              exact absurd hd (by decide)
            · intro m _ _ hm
              cases hm
              rfl
            · intro _ hd
              exact absurd hd (by decide)
            · intro r _ _ hr
              cases hr
              rfl
            · intro b0' hz _
              exact absurd rfl hz

/-- C5 witness: the theorem applied to the ZONE fixture with a
non-dom-coincident parent: the manifest hash covers the collected
manifest plus the parent hash, and the rollup hash covers the collected
rollup plus the parent's external transactions. -/
theorem finalizeAssembleAndBroadcast_hashes_witness :
    c5Blk.header.manifestHash =
      c5Collab.deriveShaHashes ([41] ++ [fixHeader.parentHash])
    ∧ c5Blk.header.etxRollupHash =
      c5Collab.deriveShaTxs ([⟨77, 0⟩] ++ c5Parent.etxs) := by
  have h := finalizeAssembleAndBroadcast_hashes .zone c5Collab
    pendingBlockBodyLimit [] fixHeader c5Parent ⟨0, 0, 0, 0⟩ [] [] [] [] []
    c5Blk c5Cache rfl
  exact ⟨h.2.2.1 [41] (by decide) rfl rfl, h.2.2.2.2.1 [⟨77, 0⟩] rfl rfl rfl⟩

/-- Helper: association lookup over an append tries the left list first. -/
theorem assocLookup_append {α : Type} (A B : List (Hash × α)) (k : Hash) :
    assocLookup (A ++ B) k =
      match assocLookup A k with
      | some v => some v
      | none => assocLookup B k := by
  induction A with
  | nil => rfl
  | cons p rest ih =>
    obtain ⟨k0, v0⟩ := p
    by_cases hk : k0 = k
    · simp [assocLookup, hk]
    · simp [assocLookup, hk, ih]

/-- Helper: lookup on a cons. -/
theorem assocLookup_cons {α : Type} (k0 : Hash) (v0 : α)
    (rest : List (Hash × α)) (k : Hash) :
    assocLookup ((k0, v0) :: rest) k =
      if k0 = k then some v0 else assocLookup rest k := rfl

/-- Helper: filtering out a different key does not change a lookup. -/
theorem assocLookup_filter_ne {α : Type} (c : List (Hash × α)) (k k' : Hash)
    (hne : k' ≠ k) :
    assocLookup (c.filter (fun p => p.1 ≠ k)) k' = assocLookup c k' := by
  induction c with
  | nil => rfl
  | cons p rest ih =>
    obtain ⟨k0, v0⟩ := p
    by_cases h0 : k0 = k
    · rw [List.filter_cons_of_neg (by simp [h0])]
      rw [ih, assocLookup_cons]
      have hk0 : ¬ k0 = k' := fun hh => hne (hh.symm.trans h0)
      rw [if_neg hk0]
    · rw [List.filter_cons_of_pos (by simp [h0])]
      rw [assocLookup_cons, assocLookup_cons]
      by_cases h1 : k0 = k'
      · rw [if_pos h1, if_pos h1]
      · rw [if_neg h1, if_neg h1, ih]

/-- Helper: after filtering a key out, looking it up yields nothing. -/
theorem assocLookup_filter_self {α : Type} (c : List (Hash × α)) (k : Hash) :
    assocLookup (c.filter (fun p => p.1 ≠ k)) k = none := by
  induction c with
  | nil => rfl
  | cons p rest ih =>
    obtain ⟨k0, v0⟩ := p
    by_cases h0 : k0 = k
    · rw [List.filter_cons_of_neg (by simp [h0])]
      exact ih
    · rw [List.filter_cons_of_pos (by simp [h0])]
      rw [assocLookup_cons, if_neg h0]
      exact ih

/-- Helper: a lookup succeeds exactly for the stored keys. -/
theorem assocLookup_isSome_iff {α : Type} (c : List (Hash × α)) (k : Hash) :
    (assocLookup c k).isSome ↔ k ∈ c.map Prod.fst := by
  induction c with
  | nil => simp [assocLookup]
  | cons p rest ih =>
    obtain ⟨k0, v0⟩ := p
    by_cases h0 : k0 = k
    · simp [assocLookup, h0]
    · have h0' : ¬ k = k0 := fun hh => h0 hh.symm
      simp [assocLookup, h0, h0', ih]

/-- Helper: a missing key looks up to nothing. -/
theorem assocLookup_eq_none_of_not_mem {α : Type} (c : List (Hash × α))
    (k : Hash) (hk : ¬ k ∈ c.map Prod.fst) : assocLookup c k = none := by
  cases hl : assocLookup c k with
  | none => rfl
  | some v =>
    exact absurd ((assocLookup_isSome_iff c k).mp (by rw [hl]; rfl)) hk

/-- Helper: a stored key peeks to its `peekD` value. -/
theorem cachePeek_eq_peekD (c : PBCache) (k : Hash) (hk : k ∈ cacheKeys c) :
    cachePeek c k = some (peekD c k) := by
  have := (assocLookup_isSome_iff c k).mpr hk
  cases hl : assocLookup c k with
  | none => rw [hl] at this; exact absurd this (by simp)
  | some v =>
    simp [cachePeek, peekD, hl]

/-- Helper: filtering out an absent key is the identity. -/
theorem filter_ne_of_not_mem {α : Type} (c : List (Hash × α)) (k : Hash)
    (hk : ¬ k ∈ c.map Prod.fst) : c.filter (fun p => p.1 ≠ k) = c := by
  induction c with
  | nil => rfl
  | cons p rest ih =>
    obtain ⟨k0, v0⟩ := p
    simp only [List.map_cons, List.mem_cons] at hk
    push_neg at hk
    obtain ⟨hk0, hkrest⟩ := hk
    have h0 : k0 ≠ k := fun hh => hk0 hh.symm
    rw [List.filter_cons_of_pos (by simp [h0])]
    rw [ih hkrest]

/-- Helper: with pairwise-distinct keys, filtering a stored key out
removes exactly one entry. -/
theorem length_filter_ne_of_nodup {α : Type} (c : List (Hash × α)) (k : Hash)
    (hnodup : (c.map Prod.fst).Nodup) (hk : k ∈ c.map Prod.fst) :
    (c.filter (fun p => p.1 ≠ k)).length + 1 = c.length := by
  induction c with
  | nil => simp at hk
  | cons p rest ih =>
    obtain ⟨k0, v0⟩ := p
    simp only [List.map_cons, List.nodup_cons] at hnodup
    obtain ⟨h0, hrest⟩ := hnodup
    by_cases hh : k0 = k
    · subst hh
      rw [List.filter_cons_of_neg (by simp)]
      rw [filter_ne_of_not_mem rest k0 h0]
      simp
    · have hkrest : k ∈ rest.map Prod.fst := by
        rcases List.mem_cons.mp hk with h | h
        · exact absurd h.symm hh
        · exact h
      rw [List.filter_cons_of_pos (by simp [hh])]
      simp only [List.length_cons]
      rw [← ih hrest hkrest]

/-- Helper: adding a value under an already-stored key of an
under-capacity cache rewrites the entry without eviction. -/
theorem cacheAdd_eq (cap : Nat) (c : PBCache) (k : Hash) (v : Option Body)
    (hnodup : (cacheKeys c).Nodup) (hk : k ∈ cacheKeys c)
    (hlen : c.length ≤ cap) :
    cacheAdd cap c k v = c.filter (fun p => p.1 ≠ k) ++ [(k, v)] := by
  unfold cacheAdd
  have hflen := length_filter_ne_of_nodup c k hnodup hk
  have hlen' : (c.filter (fun p => p.1 ≠ k) ++ [(k, v)]).length = c.length := by
    simp only [List.length_append, List.length_singleton]
    omega
  rw [if_neg (by omega)]

/-- Helper: after an in-place add, the added key peeks to its new value. -/
theorem cacheAdd_peek_self (cap : Nat) (c : PBCache) (k : Hash)
    (v : Option Body) (hnodup : (cacheKeys c).Nodup) (hk : k ∈ cacheKeys c)
    (hlen : c.length ≤ cap) :
    cachePeek (cacheAdd cap c k v) k = some v := by
  rw [cacheAdd_eq cap c k v hnodup hk hlen]
  unfold cachePeek
  rw [assocLookup_append]
  rw [assocLookup_filter_self]
  show assocLookup [(k, v)] k = some v
  rw [assocLookup_cons, if_pos rfl]

/-- Helper: an in-place add leaves every other key's peek unchanged. -/
theorem cacheAdd_peek_ne (cap : Nat) (c : PBCache) (k k' : Hash)
    (v : Option Body) (hnodup : (cacheKeys c).Nodup) (hk : k ∈ cacheKeys c)
    (hlen : c.length ≤ cap) (hne : k' ≠ k) :
    cachePeek (cacheAdd cap c k v) k' = cachePeek c k' := by
  rw [cacheAdd_eq cap c k v hnodup hk hlen]
  unfold cachePeek
  rw [assocLookup_append]
  rw [assocLookup_filter_ne c k k' hne]
  cases hl : assocLookup c k' with
  | some w => rfl
  | none =>
    show assocLookup [(k, v)] k' = none
    rw [assocLookup_cons, if_neg (fun hh => hne hh.symm)]
    rfl

/-- Helper: an in-place add preserves the cache length. -/
theorem cacheAdd_length (cap : Nat) (c : PBCache) (k : Hash) (v : Option Body)
    (hnodup : (cacheKeys c).Nodup) (hk : k ∈ cacheKeys c)
    (hlen : c.length ≤ cap) :
    (cacheAdd cap c k v).length = c.length := by
  rw [cacheAdd_eq cap c k v hnodup hk hlen]
  have := length_filter_ne_of_nodup c k hnodup hk
  simp only [List.length_append, List.length_singleton]
  omega

/-- Helper: an in-place add preserves key membership. -/
theorem cacheAdd_mem (cap : Nat) (c : PBCache) (k k' : Hash) (v : Option Body)
    (hnodup : (cacheKeys c).Nodup) (hk : k ∈ cacheKeys c)
    (hlen : c.length ≤ cap) (hk' : k' ∈ cacheKeys c) :
    k' ∈ cacheKeys (cacheAdd cap c k v) := by
  by_cases hne : k' = k
  · subst hne
    have hpeek := cacheAdd_peek_self cap c k' v hnodup hk hlen
    have hsome : (assocLookup (cacheAdd cap c k' v) k').isSome := by
      unfold cachePeek at hpeek
      rw [hpeek]
      rfl
    exact (assocLookup_isSome_iff _ k').mp hsome
  · have hpeek := cacheAdd_peek_ne cap c k k' v hnodup hk hlen hne
    have hsome : (assocLookup (cacheAdd cap c k v) k').isSome := by
      unfold cachePeek at hpeek
      rw [hpeek]
      exact (assocLookup_isSome_iff c k').mpr hk'
    exact (assocLookup_isSome_iff _ k').mp hsome

/-- Helper: an in-place add preserves distinctness of the keys. -/
theorem cacheAdd_keys_nodup (cap : Nat) (c : PBCache) (k : Hash)
    (v : Option Body) (hnodup : (cacheKeys c).Nodup) (hk : k ∈ cacheKeys c)
    (hlen : c.length ≤ cap) :
    (cacheKeys (cacheAdd cap c k v)).Nodup := by
  rw [cacheAdd_eq cap c k v hnodup hk hlen]
  unfold cacheKeys
  rw [List.map_append]
  have hsub : (c.filter (fun p => p.1 ≠ k)).Sublist c := List.filter_sublist c
  have hsubmap := hsub.map Prod.fst
  have hnodup' : ((c.filter (fun p => p.1 ≠ k)).map Prod.fst).Nodup :=
    hnodup.sublist hsubmap
  have hknot : ¬ k ∈ (c.filter (fun p => p.1 ≠ k)).map Prod.fst := by
    intro hmem
    have := (assocLookup_isSome_iff (c.filter (fun p => p.1 ≠ k)) k).mpr hmem
    rw [assocLookup_filter_self] at this
    exact absurd this (by simp)
  have hdisj : List.Disjoint ((c.filter (fun p => p.1 ≠ k)).map Prod.fst) [k] := by
    intro a ha hb
    rw [List.mem_singleton] at hb
    subst hb
    exact hknot ha
  rw [show (List.map Prod.fst [(k, v)]) = [k] from rfl]
  exact hnodup'.append (List.nodup_singleton k) hdisj

/-- Helper: deleting one blob leaves the other blobs' reads unchanged. -/
theorem ReadPbCacheBody_delete_ne (db : WorkerDB) (k k' : Hash)
    (hne : k' ≠ k) :
    ReadPbCacheBody (DeletePbCacheBody db k) k' = ReadPbCacheBody db k' := by
  unfold ReadPbCacheBody DeletePbCacheBody
  dsimp only
  rw [assocLookup_filter_ne db.pbCacheBodies k k' hne]

/-- Helper: unfolding `storedBlobs` over a cons. -/
theorem storedBlobs_cons (C : PBCache) (ks : List Hash) (k : Hash) :
    storedBlobs C (k :: ks) =
      if k = EmptyBodyHash then storedBlobs C ks
      else (k, peekD C k) :: storedBlobs C ks := by
  unfold storedBlobs
  by_cases hE : k = EmptyBodyHash
  · rw [List.filter_cons_of_neg (by simp [hE]), if_pos hE]
  · rw [List.filter_cons_of_pos (by simp [hE]), if_neg hE, List.map_cons]

/-- Helper: every blob the store writes sits under one of the stored
keys. -/
theorem storedBlobs_key_mem (C : PBCache) (ks : List Hash)
    (p : Hash × Option Body) (hp : p ∈ storedBlobs C ks) : p.1 ∈ ks := by
  unfold storedBlobs at hp
  obtain ⟨k, hk, hpk⟩ := List.mem_map.mp hp
  have hmem := (List.mem_filter.mp hk).1
  rw [← hpk]
  exact hmem

/-- Helper: reading a written blob back. -/
theorem assocLookup_storedBlobs (C : PBCache) :
    ∀ ks : List Hash, ks.Nodup → ∀ k ∈ ks, k ≠ EmptyBodyHash →
      assocLookup (storedBlobs C ks) k = some (peekD C k) := by
  intro ks
  induction ks with
  | nil =>
    intro _ k hk _
    exact absurd hk (List.not_mem_nil k)
  | cons k0 ks ih =>
    intro hnodup k hk hE
    rw [storedBlobs_cons]
    rcases List.mem_cons.mp hk with heq | hmem
    · subst heq
      rw [if_neg hE, assocLookup_cons, if_pos rfl]
    · by_cases hE0 : k0 = EmptyBodyHash
      · rw [if_pos hE0]
        exact ih (List.nodup_cons.mp hnodup).2 k hmem hE
      · rw [if_neg hE0, assocLookup_cons]
        have hne : ¬ k0 = k := by
          intro hh
          subst hh
          exact (List.nodup_cons.mp hnodup).1 hmem
        rw [if_neg hne]
        exact ih (List.nodup_cons.mp hnodup).2 k hmem hE

/-- Helper: merging a single-key filter into a key-list filter. -/
theorem filter_ne_filter_not_mem {α : Type} (l : List (Hash × α)) (k : Hash)
    (ks : List Hash) :
    (l.filter (fun p => p.1 ≠ k)).filter (fun p => decide (¬ p.1 ∈ ks)) =
      l.filter (fun p => decide (¬ p.1 ∈ k :: ks)) := by
  rw [List.filter_filter]
  apply List.filter_congr
  intro p _
  by_cases h1 : p.1 = k <;> by_cases h2 : p.1 ∈ ks <;> simp [h1, h2]

/-- Helper: `storePendingBodies` collects exactly the given keys (all of
which peek successfully) and appends one blob per non-sentinel key to an
initially blob-disjoint store, leaving the keys index untouched. -/
theorem storePendingBodies_spec (C : PBCache) :
    ∀ (ks : List Hash) (db : WorkerDB),
      (∀ k ∈ ks, k ∈ cacheKeys C) → ks.Nodup →
      (∀ k ∈ ks, assocLookup db.pbCacheBodies k = none) →
      storePendingBodies C db ks =
        (ks, ⟨db.pbBodyKeys, db.pbCacheBodies ++ storedBlobs C ks⟩) := by
  intro ks
  induction ks with
  | nil =>
    intro db _ _ _
    unfold storePendingBodies storedBlobs
    simp
  | cons k ks ih =>
    intro db hmem hnodup hnone
    have hkC : k ∈ cacheKeys C := hmem k (List.mem_cons_self k ks)
    have hpeek := cachePeek_eq_peekD C k hkC
    have hknotdb : ¬ k ∈ db.pbCacheBodies.map Prod.fst := by
      intro habs
      have := (assocLookup_isSome_iff db.pbCacheBodies k).mpr habs
      rw [hnone k (List.mem_cons_self k ks)] at this
      exact absurd this (by simp)
    rw [storePendingBodies, hpeek]
    dsimp only
    by_cases hE : k = EmptyBodyHash
    · rw [if_neg (not_not_intro hE)]
      rw [ih db (fun k2 h2 => hmem k2 (List.mem_cons_of_mem k h2))
        (List.nodup_cons.mp hnodup).2
        (fun k2 h2 => hnone k2 (List.mem_cons_of_mem k h2))]
      rw [storedBlobs_cons, if_pos hE]
    · rw [if_pos hE]
      have hblobs : (WritePbCacheBody db k (peekD C k)).pbCacheBodies =
          db.pbCacheBodies ++ [(k, peekD C k)] := by
        unfold WritePbCacheBody
        dsimp only
        rw [filter_ne_of_not_mem db.pbCacheBodies k hknotdb]
      have hnone' : ∀ k2 ∈ ks,
          assocLookup (WritePbCacheBody db k (peekD C k)).pbCacheBodies k2 = none := by
        intro k2 h2
        rw [hblobs, assocLookup_append,
          hnone k2 (List.mem_cons_of_mem k h2)]
        have hne : ¬ k = k2 := by
          intro hh
          subst hh
          exact (List.nodup_cons.mp hnodup).1 h2
        rw [assocLookup_cons, if_neg hne]
        rfl
      rw [ih (WritePbCacheBody db k (peekD C k))
        (fun k2 h2 => hmem k2 (List.mem_cons_of_mem k h2))
        (List.nodup_cons.mp hnodup).2 hnone']
      rw [show (WritePbCacheBody db k (peekD C k)).pbBodyKeys = db.pbBodyKeys
        from rfl]
      rw [hblobs, storedBlobs_cons, if_neg hE]
      rw [List.append_assoc, List.singleton_append]

/-- Helper: `loadPendingBodies` rehydrates the listed keys into the
cache (the empty-body sentinel as an empty body, every other key from
its blob) and deletes each blob it visits, leaving the keys index
untouched. -/
theorem loadPendingBodies_spec (cap : Nat) :
    ∀ (ks : List Hash) (c : PBCache) (db : WorkerDB),
      ks.Nodup → (cacheKeys c).Nodup → c.length ≤ cap →
      (∀ k ∈ ks, k ∈ cacheKeys c) →
      (∀ k ∈ ks, k ≠ EmptyBodyHash → ReadPbCacheBody db k = peekD c k) →
      (loadPendingBodies cap ks c db).2.pbBodyKeys = db.pbBodyKeys
      ∧ (loadPendingBodies cap ks c db).2.pbCacheBodies =
          db.pbCacheBodies.filter (fun p => decide (¬ p.1 ∈ ks))
      ∧ ∀ k', cachePeek (loadPendingBodies cap ks c db).1 k' =
          if k' ∈ ks then
            (if k' = EmptyBodyHash then some (some emptyBody)
             else some (peekD c k'))
          else cachePeek c k' := by
  intro ks
  induction ks with
  | nil =>
    intro c db _ _ _ _ _
    refine ⟨rfl, ?_, ?_⟩
    · rw [show (loadPendingBodies cap [] c db).2 = db from rfl]
      exact (List.filter_eq_self.mpr (fun a _ => by simp)).symm
    · intro k'
      rw [if_neg (List.not_mem_nil k')]
      rfl
  | cons k ks ih =>
    intro c db hnodup hcnodup hclen hmem hread
    have hkC : k ∈ cacheKeys c := hmem k (List.mem_cons_self k ks)
    have hknotks : ¬ k ∈ ks := (List.nodup_cons.mp hnodup).1
    have hkstl : ks.Nodup := (List.nodup_cons.mp hnodup).2
    have hc' : (if k = EmptyBodyHash then cacheAdd cap c k (some emptyBody)
        else cacheAdd cap c k (ReadPbCacheBody db k)) =
        cacheAdd cap c k
          (if k = EmptyBodyHash then some emptyBody else ReadPbCacheBody db k) := by
      by_cases hE : k = EmptyBodyHash
      · rw [if_pos hE, if_pos hE]
      · rw [if_neg hE, if_neg hE]
    have hload : loadPendingBodies cap (k :: ks) c db =
        loadPendingBodies cap ks
          (cacheAdd cap c k
            (if k = EmptyBodyHash then some emptyBody else ReadPbCacheBody db k))
          (DeletePbCacheBody db k) := by
      rw [loadPendingBodies]
      rw [hc']
    have hc2nodup := cacheAdd_keys_nodup cap c k
      (if k = EmptyBodyHash then some emptyBody else ReadPbCacheBody db k)
      hcnodup hkC hclen
    have hc2len : (cacheAdd cap c k
        (if k = EmptyBodyHash then some emptyBody else ReadPbCacheBody db k)).length
        ≤ cap := by
      rw [cacheAdd_length cap c k _ hcnodup hkC hclen]
      exact hclen
    have hc2mem : ∀ k2 ∈ ks, k2 ∈ cacheKeys (cacheAdd cap c k
        (if k = EmptyBodyHash then some emptyBody else ReadPbCacheBody db k)) := by
      intro k2 h2
      exact cacheAdd_mem cap c k k2 _ hcnodup hkC hclen
        (hmem k2 (List.mem_cons_of_mem k h2))
    have hc2read : ∀ k2 ∈ ks, k2 ≠ EmptyBodyHash →
        ReadPbCacheBody (DeletePbCacheBody db k) k2 =
          peekD (cacheAdd cap c k
            (if k = EmptyBodyHash then some emptyBody else ReadPbCacheBody db k)) k2 := by
      intro k2 h2 hE2
      have hne2 : k2 ≠ k := by
        intro hh
        subst hh
        exact hknotks h2
      rw [ReadPbCacheBody_delete_ne db k k2 hne2,
        hread k2 (List.mem_cons_of_mem k h2) hE2]
      unfold peekD
      rw [cacheAdd_peek_ne cap c k k2 _ hcnodup hkC hclen hne2]
    obtain ⟨ihkeys, ihblobs, ihpeek⟩ := ih (cacheAdd cap c k
      (if k = EmptyBodyHash then some emptyBody else ReadPbCacheBody db k))
      (DeletePbCacheBody db k) hkstl hc2nodup hc2len hc2mem hc2read
    refine ⟨?_, ?_, ?_⟩
    · rw [hload, ihkeys]
      rfl
    · rw [hload, ihblobs]
      rw [show (DeletePbCacheBody db k).pbCacheBodies =
        db.pbCacheBodies.filter (fun p => p.1 ≠ k) from rfl]
      exact filter_ne_filter_not_mem db.pbCacheBodies k ks
    · intro k'
      rw [hload, ihpeek k']
      by_cases hks' : k' ∈ ks
      · rw [if_pos hks', if_pos (List.mem_cons_of_mem k hks')]
        have hne' : k' ≠ k := by
          intro hh
          subst hh
          exact hknotks hks'
        by_cases hE' : k' = EmptyBodyHash
        · rw [if_pos hE', if_pos hE']
        · rw [if_neg hE', if_neg hE']
          unfold peekD
          rw [cacheAdd_peek_ne cap c k k' _ hcnodup hkC hclen hne']
      · by_cases heq : k' = k
        · subst heq
          rw [if_neg hks', if_pos (List.mem_cons_self k' ks)]
          rw [cacheAdd_peek_self cap c k' _ hcnodup hkC hclen]
          by_cases hE : k' = EmptyBodyHash
          · rw [if_pos hE, if_pos hE]
          · rw [if_neg hE, if_neg hE,
              hread k' (List.mem_cons_self k' ks) hE]
        · have hnotcons : ¬ k' ∈ k :: ks := by
            intro habs
            rcases List.mem_cons.mp habs with hh | hh
            · exact heq hh
            · exact hks' hh
          rw [if_neg hks', if_neg hnotcons]
          rw [cacheAdd_peek_ne cap c k k' _ hcnodup hkC hclen heq]

/-- C6 counterexample: store-then-load over one non-empty body leaves
the keys index `[5]` on disk - `LoadPendingBlockBody` deletes the body
blobs but never the keys index, so the on-disk pending-body table is not
empty afterwards, refuting the claim's second half. -/
theorem storeLoad_disk_counterexample :
    (LoadPendingBlockBody pendingBlockBodyLimit
      (StorePendingBlockBody c6Worker)).workerDb.pbBodyKeys = [5]
    ∧ [5] ≠ ([] : List Hash) :=
  ⟨rfl, by decide⟩

/-- C6 amended: for a pending-body cache with pairwise-distinct
fingerprints within capacity and an initially empty blob table,
`StorePendingBlockBody` followed by `LoadPendingBlockBody` leaves the
LRU contents equal as a mapping to what was stored (the empty-body
fingerprint rehydrated as an empty body) and deletes all body blobs from
disk, but the keys index written by the store remains on disk (load does
not delete it). -/
theorem storeLoad_roundtrip (w : Worker)
    (hnodup : (cacheKeys w.pendingBlockBody).Nodup)
    (hlen : w.pendingBlockBody.length ≤ pendingBlockBodyLimit)
    (hdb : w.workerDb.pbCacheBodies = []) :
    (∀ k, cachePeek (LoadPendingBlockBody pendingBlockBodyLimit
        (StorePendingBlockBody w)).pendingBlockBody k =
      (cachePeek w.pendingBlockBody k).map
        (fun v => if k = EmptyBodyHash then some emptyBody else v))
    ∧ (LoadPendingBlockBody pendingBlockBodyLimit
        (StorePendingBlockBody w)).workerDb.pbCacheBodies = []
    ∧ (LoadPendingBlockBody pendingBlockBodyLimit
        (StorePendingBlockBody w)).workerDb.pbBodyKeys =
      cacheKeys w.pendingBlockBody := by
  have hstore : StorePendingBlockBody w =
      { w with workerDb := ⟨cacheKeys w.pendingBlockBody,
          storedBlobs w.pendingBlockBody (cacheKeys w.pendingBlockBody)⟩ } := by
    unfold StorePendingBlockBody
    rw [storePendingBodies_spec w.pendingBlockBody (cacheKeys w.pendingBlockBody)
      w.workerDb (fun _ hk => hk) hnodup (fun k _ => by rw [hdb]; rfl)]
    dsimp only
    rw [hdb, List.nil_append]
    rfl
  have hreadS : ∀ k ∈ cacheKeys w.pendingBlockBody, k ≠ EmptyBodyHash →
      ReadPbCacheBody ⟨cacheKeys w.pendingBlockBody,
        storedBlobs w.pendingBlockBody (cacheKeys w.pendingBlockBody)⟩ k =
      peekD w.pendingBlockBody k := by
    intro k hk hE
    unfold ReadPbCacheBody
    dsimp only
    rw [assocLookup_storedBlobs w.pendingBlockBody (cacheKeys w.pendingBlockBody)
      hnodup k hk hE]
    rfl
  obtain ⟨hk1, hb1, hp1⟩ := loadPendingBodies_spec pendingBlockBodyLimit
    (cacheKeys w.pendingBlockBody) w.pendingBlockBody
    ⟨cacheKeys w.pendingBlockBody,
      storedBlobs w.pendingBlockBody (cacheKeys w.pendingBlockBody)⟩
    hnodup hnodup hlen (fun _ hk => hk) hreadS
  have hLB : LoadPendingBlockBody pendingBlockBodyLimit (StorePendingBlockBody w) =
      { w with
        pendingBlockBody := (loadPendingBodies pendingBlockBodyLimit
          (cacheKeys w.pendingBlockBody) w.pendingBlockBody
          ⟨cacheKeys w.pendingBlockBody,
            storedBlobs w.pendingBlockBody (cacheKeys w.pendingBlockBody)⟩).1,
        workerDb := (loadPendingBodies pendingBlockBodyLimit
          (cacheKeys w.pendingBlockBody) w.pendingBlockBody
          ⟨cacheKeys w.pendingBlockBody,
            storedBlobs w.pendingBlockBody (cacheKeys w.pendingBlockBody)⟩).2 } := by
    rw [hstore]
    unfold LoadPendingBlockBody
    unfold ReadPbBodyKeys
    dsimp only
  refine ⟨?_, ?_, ?_⟩
  · intro k
    rw [hLB]
    rw [show ({ w with
        pendingBlockBody := (loadPendingBodies pendingBlockBodyLimit
          (cacheKeys w.pendingBlockBody) w.pendingBlockBody
          ⟨cacheKeys w.pendingBlockBody,
            storedBlobs w.pendingBlockBody (cacheKeys w.pendingBlockBody)⟩).1,
        workerDb := (loadPendingBodies pendingBlockBodyLimit
          (cacheKeys w.pendingBlockBody) w.pendingBlockBody
          ⟨cacheKeys w.pendingBlockBody,
            storedBlobs w.pendingBlockBody (cacheKeys w.pendingBlockBody)⟩).2 } :
        Worker).pendingBlockBody = (loadPendingBodies pendingBlockBodyLimit
          (cacheKeys w.pendingBlockBody) w.pendingBlockBody
          ⟨cacheKeys w.pendingBlockBody,
            storedBlobs w.pendingBlockBody (cacheKeys w.pendingBlockBody)⟩).1
      from rfl]
    rw [hp1 k]
    by_cases hk : k ∈ cacheKeys w.pendingBlockBody
    · rw [if_pos hk, cachePeek_eq_peekD w.pendingBlockBody k hk]
      by_cases hE : k = EmptyBodyHash
      · rw [if_pos hE]
        simp [hE]
      · rw [if_neg hE]
        simp [hE]
    · rw [if_neg hk]
      unfold cachePeek
      rw [assocLookup_eq_none_of_not_mem w.pendingBlockBody k hk]
      rfl
  · rw [hLB]
    rw [hb1]
    dsimp only
    rw [List.filter_eq_nil_iff]
    intro p hp
    have := storedBlobs_key_mem w.pendingBlockBody (cacheKeys w.pendingBlockBody) p hp
    simp [this]
  · rw [hLB]
    exact hk1

/-- C6 witness: the amended theorem applied to the one-entry worker
fixture: the mapping is preserved at fingerprint 5, the blob table ends
empty and the keys index ends as the stored keys. -/
theorem storeLoad_roundtrip_witness :
    (LoadPendingBlockBody pendingBlockBodyLimit
      (StorePendingBlockBody c6Worker)).workerDb.pbCacheBodies = []
    ∧ (LoadPendingBlockBody pendingBlockBodyLimit
      (StorePendingBlockBody c6Worker)).workerDb.pbBodyKeys =
        cacheKeys c6Worker.pendingBlockBody
    ∧ cachePeek (LoadPendingBlockBody pendingBlockBodyLimit
        (StorePendingBlockBody c6Worker)).pendingBlockBody 5 =
      (cachePeek c6Worker.pendingBlockBody 5).map
        (fun v => if (5 : Hash) = EmptyBodyHash then some emptyBody else v) := by
  have h := storeLoad_roundtrip c6Worker (by decide) (by decide) rfl
  exact ⟨h.2.1, h.2.2, h.1 5⟩

end QuaiWorker
